import Mathlib

/-
Formal model (shallow embedding) of the Centris import pipeline of this
repository: the parsing helpers and the reconciliation command in
core/management/commands/import_centris.py, together with the standalone
variant parse_centris_zip.py where the claims reference it.

CSV rows are lists of strings.  Machine integers of the source are modelled
as Nat / Int (Python integers are unbounded, so no wrap-around is needed).
Timestamps are abstract naturals.  Network effects (index listing, HEAD
probes) are modelled as explicit oracle parameters.
-/

abbrev Row := List String

/-- Whitespace class used by Python str.strip(), int() and the regex class
for spaces (ASCII part, which is what the feed contains). -/
def isPySpace (c : Char) : Bool :=
  c == ' ' || c == '\t' || c == '\n' || c == '\r' || c == '\x0b' || c == '\x0c'

/-- Drop characters satisfying p from both ends of a character list. -/
def stripEdges (p : Char → Bool) (l : List Char) : List Char :=
  ((l.dropWhile p).reverse.dropWhile p).reverse

/-- Helper clean(): s.strip().strip(ASCII double quote) of the source,
applied to string fields (CSV fields are always strings). -/
def clean (s : String) : String :=
  String.mk (stripEdges (fun c => c == '"') (stripEdges isPySpace s.toList))

/-- Python str.isdigit on the ASCII decimal digits the feed uses. -/
def pyIsdigit (s : String) : Bool :=
  !s.isEmpty && s.toList.all Char.isDigit

/-- Numeric value of a list of decimal digits. -/
def digitsVal (l : List Char) : Nat :=
  l.foldl (fun a c => a * 10 + (c.toNat - 48)) 0

/-- Numeric value of a digit string (used after a pyIsdigit check,
mirroring int(...) on an isdigit()-validated string). -/
def natOfDigits (s : String) : Nat :=
  digitsVal s.toList

/-- After a first digit, Python int() accepts digits with single
underscores strictly between digits. -/
def pyDigitsTail : List Char → Bool
  | [] => true
  | c :: rest =>
    if c == '_' then
      match rest with
      | [] => false
      | d :: rest2 => d.isDigit && pyDigitsTail rest2
    else c.isDigit && pyDigitsTail rest

/-- Python int() applied to a string: optional surrounding whitespace,
optional sign, decimal digits (underscores allowed between digits).
Returns none where int() raises ValueError. -/
def pyInt (s : String) : Option Int :=
  let parseNat : List Char → Option Nat := fun l =>
    match l with
    | [] => none
    | c :: rest =>
      if c.isDigit && pyDigitsTail rest then
        some (digitsVal ((c :: rest).filter (fun d => d != '_')))
      else none
  match stripEdges isPySpace s.toList with
  | '-' :: rest => (parseNat rest).map (fun n => -(n : Int))
  | '+' :: rest => (parseNat rest).map (fun n => (n : Int))
  | l => (parseNat l).map (fun n => (n : Int))

/-- Lower-casing as performed by re.IGNORECASE on the characters appearing
in the proximity marker (ASCII letters plus the two accented letters). -/
def lowerFr (c : Char) : Char :=
  if c == 'À' then 'à' else if c == 'É' then 'é' else c.toLower

/-- Length of a dropWhile result never exceeds the input length. -/
theorem length_dropWhile_le (p : Char → Bool) (l : List Char) :
    (l.dropWhile p).length ≤ l.length := by
  induction l with
  | nil => simp [List.dropWhile]
  | cons c rest ih =>
    simp only [List.dropWhile]
    by_cases h : p c
    · simp [h]; omega
    · simp [h]

/-- Match the tail of the line-break tag regex: \s* then an optional slash,
then the closing angle bracket. -/
def brClose : List Char → Option (List Char)
  | [] => none
  | c :: rest =>
    if isPySpace c then brClose rest
    else if c == '/' then
      if rest.headD ' ' == '>' then some rest.tail else none
    else if c == '>' then some rest
    else none

theorem brClose_length {l r : List Char} (h : brClose l = some r) :
    r.length ≤ l.length := by
  induction l generalizing r with
  | nil => simp [brClose] at h
  | cons c rest ih =>
    simp only [brClose] at h
    split at h
    · exact le_trans (ih h) (by simp)
    · split at h
      · split at h
        · cases h
          calc rest.tail.length ≤ rest.length := by
                cases rest <;> simp
            _ ≤ (c :: rest).length := by simp
        · cases h
      · split at h
        · cases h
          simp
        · cases h

/-- Match one occurrence of the case-insensitive line-break tag regex at the
start of the list, returning the remainder. -/
def matchBrTag : List Char → Option (List Char)
  | a :: b :: r :: rest =>
    if a == '<' && lowerFr b == 'b' && lowerFr r == 'r' then brClose rest
    else none
  | _ => none

theorem matchBrTag_length {l r : List Char} (h : matchBrTag l = some r) :
    r.length + 3 ≤ l.length := by
  match l with
  | [] => simp [matchBrTag] at h
  | [a] => simp [matchBrTag] at h
  | [a, b] => simp [matchBrTag] at h
  | a :: b :: c :: rest =>
    simp only [matchBrTag] at h
    split at h
    · have := brClose_length h
      simp
      omega
    · cases h

/-- Fuel-indexed scanner for the line-break substitution; the fuel only
bounds recursion depth and is always sufficient at stripBr's call site
because every step consumes at least one character (matchBrTag_length). -/
def stripBrFuel : Nat → List Char → List Char
  | _, [] => []
  | 0, l => l
  | fuel + 1, c :: rest =>
    match matchBrTag (c :: rest) with
    | some rest2 => ' ' :: stripBrFuel fuel rest2
    | none => c :: stripBrFuel fuel rest

/-- re.sub of the line-break tag regex with a single space, scanning left to
right over non-overlapping occurrences. -/
def stripBr (l : List Char) : List Char :=
  stripBrFuel l.length l

/-- Non-greedy tag body: characters until the first closing angle bracket,
failing on a newline (the dot of the pattern does not match newlines). -/
def tagClose : List Char → Option (List Char)
  | [] => none
  | c :: r =>
    if c == '>' then some r
    else if c == '\n' then none
    else tagClose r

theorem tagClose_length {l r : List Char} (h : tagClose l = some r) :
    r.length < l.length := by
  induction l generalizing r with
  | nil => simp [tagClose] at h
  | cons c rest ih =>
    simp only [tagClose] at h
    split at h
    · cases h; simp
    · split at h
      · cases h
      · have := ih h
        simp
        omega

/-- Match one non-greedy angle-bracketed span at the start of the list. -/
def matchTag : List Char → Option (List Char)
  | [] => none
  | c :: rest => if c == '<' then tagClose rest else none

theorem matchTag_length {l r : List Char} (h : matchTag l = some r) :
    r.length + 2 ≤ l.length := by
  match l with
  | [] => simp [matchTag] at h
  | c :: rest =>
    simp only [matchTag] at h
    split at h
    · have := tagClose_length h
      simp
      omega
    · cases h

/-- Fuel-indexed scanner for the markup stripper; the fuel only bounds
recursion depth and is always sufficient at stripTags' call site because
every step consumes at least one character (matchTag_length). -/
def stripTagsFuel : Nat → List Char → List Char
  | _, [] => []
  | 0, l => l
  | fuel + 1, c :: rest =>
    match matchTag (c :: rest) with
    | some rest2 => stripTagsFuel fuel rest2
    | none => c :: stripTagsFuel fuel rest

/-- re.sub removing every non-greedy angle-bracketed span (the markup
stripper applied to proximity pieces). -/
def stripTags (l : List Char) : List Char :=
  stripTagsFuel l.length l

/-- Fuel-indexed splitter; the fuel only bounds recursion depth and is
always sufficient at splitSC's call site because every step consumes at
least one character (length_dropWhile_le). -/
def splitSCFuel : Nat → List Char → List Char → List (List Char)
  | _, [], acc => [acc.reverse]
  | 0, l, acc => [(acc.reverse ++ l)]
  | fuel + 1, c :: rest, acc =>
    if c == ';' || c == ',' then
      acc.reverse :: splitSCFuel fuel (rest.dropWhile isPySpace) []
    else splitSCFuel fuel rest (c :: acc)

/-- re.split on one semicolon or comma followed by greedy whitespace,
accumulating the current piece in reverse. -/
def splitSC (l : List Char) (acc : List Char) : List (List Char) :=
  splitSCFuel l.length l acc

/-- CAT_LABEL lookup with fallback to the raw code (dict get(cat, cat)). -/
def CAT_LABEL_get (c : String) : String :=
  if c == "ALLE" then "Allée"
  else if c == "CHAU" then "Mode de chauffage"
  else if c == "EAU" then "Approvisionnement en eau"
  else if c == "ENER" then "Énergie pour chauffage"
  else if c == "FENE" then "Fenestration"
  else if c == "FOND" then "Fondation"
  else if c == "PARE" then "Revêtement extérieur"
  else if c == "SS" then "Sous-sol"
  else if c == "SYEG" then "Système d\x27égout"
  else if c == "TFEN" then "Type de fenestration"
  else if c == "VUE" then "Vue"
  else if c == "ZONG" then "Zonage"
  else if c == "PROX" then "Proximité"
  else c

/-- VAL_LABEL lookup with fallback to the raw code (dict get(val, val)). -/
def VAL_LABEL_get (v : String) : String :=
  if v == "NPAV" then "Non pavé"
  else if v == "PELC" then "Plinthes électriques"
  else if v == "AMU" then "Municipal"
  else if v == "ELEC" then "Électricité"
  else if v == "BOIS" then "BOIS"
  else if v == "PVC" then "PVC"
  else if v == "BETO" then "Béton"
  else if v == "AU" then "Autre"
  else if v == "VSAN" then "Vide sanitaire"
  else if v == "EGMU" then "Égout municipal"
  else if v == "COUL" then "COUL"
  else if v == "PFEN" then "PFEN"
  else if v == "EAU" then "Vue sur l\x27eau"
  else if v == "RES" then "Résidentiel"
  else if v == "AUTO" then "Autoroute"
  else if v == "PCYC" then "Piste cyclable"
  else if v == "PRIM" then "École primaire"
  else if v == "SEC" then "École secondaire"
  else if v == "TRSP" then "Transport en commun"
  else v

/-- Characters of the literal part of the proximity marker regex. -/
def markerChars : List Char := ['p', 'r', 'o', 'x', 'i', 'm', 'i', 't', 'é']

/-- Case-insensitive literal match (pattern given in lowercase), returning
the remainder of the text. -/
def matchCI : List Char → List Char → Option (List Char)
  | [], l => some l
  | _ :: _, [] => none
  | p :: ps, c :: cs => if lowerFr c == p then matchCI ps cs else none

/-- Group 1 produced by the tail of the proximity regex (greedy spaces, an
optional colon, greedy spaces, then a non-empty DOTALL remainder), with the
backtracking a regex engine performs when the remainder would be empty. -/
def proxTail (t : List Char) : Option (List Char) :=
  let a := t.dropWhile isPySpace
  match a with
  | ':' :: t2 =>
    let t3 := t2.dropWhile isPySpace
    if t3.isEmpty then
      if t2.isEmpty then some a
      else t2.getLast?.map (fun c => [c])
    else some t3
  | _ =>
    if a.isEmpty then t.getLast?.map (fun c => [c])
    else some a

/-- Attempt the proximity marker regex at the head of the text. -/
def matchProxAt (l : List Char) : Option (List Char) :=
  match l with
  | [] => none
  | c :: rest =>
    if lowerFr c == 'à' then
      match matchCI markerChars (rest.dropWhile isPySpace) with
      | some t => proxTail t
      | none => none
    else none

/-- re.search of the proximity marker: leftmost position where the pattern
matches, returning group 1 (text after the marker, to the end). -/
def searchProx : List Char → Option (List Char)
  | [] => none
  | c :: rest =>
    match matchProxAt (c :: rest) with
    | some g => some g
    | none => searchProx rest

/-- The unique-preserving loop closing extract_proximites: keep the first
occurrence of each non-empty entry, in encounter order. -/
def dedupSeen (seen : List String) : List String → List String
  | [] => []
  | p :: ps =>
    if p ≠ "" ∧ p ∉ seen then p :: dedupSeen (p :: seen) ps
    else dedupSeen seen ps

/-- extract_year: first 4-digit field of the row whose value lies in the
interval 1800..2035; out-of-range 4-digit tokens are skipped, not errors. -/
def extract_year (values : Row) : Option Nat :=
  values.findSome? (fun v =>
    let vs := clean v
    if vs ≠ "" ∧ pyIsdigit vs ∧ vs.length = 4 then
      let y := natOfDigits vs
      if 1800 ≤ y ∧ y ≤ 2035 then some y else none
    else none)

/-- extract_address: civic number, street and postal code columns joined
with a comma, skipping empty parts. -/
def extract_address (row : Row) : Option String :=
  let civic := if row.length > 25 then clean (row.getD 25 "") else ""
  let street := if row.length > 27 then clean (row.getD 27 "") else ""
  let postal := if row.length > 29 then clean (row.getD 29 "") else ""
  let parts := [civic, street, postal].filter (fun p => p ≠ "")
  if parts.isEmpty then none else some (String.intercalate ", " parts)

/-- extract_price: column 6, accepted only when purely numeric. -/
def extract_price (row : Row) : Option Nat :=
  if row.length > 6 ∧ pyIsdigit (clean (row.getD 6 "")) then
    some (natOfDigits (clean (row.getD 6 "")))
  else none

/-- Stable insertion: x is placed before the first element whose key is
strictly greater, hence after all equal keys already present. -/
def insKey (key : α → Int) (x : α) : List α → List α
  | [] => [x]
  | y :: ys => if key y < key x then y :: insKey key x ys else x :: y :: ys

/-- The stable ascending sort by an integer key.  Python's list.sort is the
stable sort for this key order, and the stable sort is unique, so this is a
faithful model of the source's sorting calls. -/
def stableSortBy (key : α → Int) : List α → List α
  | [] => []
  | x :: xs => insKey key x (stableSortBy key xs)

/-- One photo row: needs 7 columns and an http URL in column 6; the raw
sequence of column 1 defaults to 0 when empty or non-numeric. -/
def photoKeyUrl (r : Row) : Option (Nat × String) :=
  if r.length ≥ 7 then
    let seq := clean (r.getD 1 "")
    let url := clean (r.getD 6 "")
    if url ≠ "" ∧ url.startsWith "http" then
      some ((if seq ≠ "" ∧ pyIsdigit seq then natOfDigits seq else 0), url)
    else none
  else none

/-- extract_photos of import_centris.py: (raw sequence, url) pairs sorted
stably by raw sequence. -/
def extract_photos (photo_rows : List Row) : List (Nat × String) :=
  stableSortBy (fun t => (t.1 : Int)) (photo_rows.filterMap photoKeyUrl)

/-- Sort key of the unit rows: int(clean(r[1]) or 999); none models the
exception raised on a short row or a non-numeric sequence. -/
def unitKey (r : Row) : Option Int :=
  if r.length ≥ 2 then
    let c := clean (r.getD 1 "")
    if c = "" then some 999 else pyInt c
  else none

/-- Principal-unit selection: scan the rows sorted by numeric unit sequence
for sequence "1"; on a sort-key exception fall back to the first row; when
the sort succeeds but no row matches, there is no principal unit. -/
def principalUnit (units_rows : List Row) : Option Row :=
  if units_rows.all (fun r => (unitKey r).isSome) then
    (stableSortBy (fun r => (unitKey r).getD 0) units_rows).find?
      (fun r => clean (r.getD 1 "") == "1")
  else units_rows.head?

/-- Bathroom count: room-details rows with unit sequence "1" and room code
SDB; sum(...) or None maps a zero count to none. -/
def bathroomsSDB (pieces_rows : List Row) : Option Nat :=
  let n := pieces_rows.countP (fun r =>
    decide (4 ≤ r.length) && (clean (r.getD 1 "") == "1")
      && (clean (r.getD 3 "") == "SDB"))
  if n = 0 then none else some n

/-- Numeric column read from the principal unit (columns 3 and 4). -/
def unitNumCol (principal : Option Row) (i : Nat) : Option Nat :=
  match principal with
  | some p =>
    if p.length ≥ 5 then
      let s := clean (p.getD i "")
      if s ≠ "" ∧ pyIsdigit s then some (natOfDigits s) else none
    else none
  | none => none

/-- extract_units: total rooms and bedrooms from the principal unit,
bathrooms counted from the room-details table. -/
def extract_units (units_rows pieces_rows : List Row) :
    Option Nat × Option Nat × Option Nat :=
  let principal := principalUnit units_rows
  (unitNumCol principal 3, unitNumCol principal 4, bathroomsSDB pieces_rows)

/-- Sort key of remarks rows: int(clean(r[1]) or 0). -/
def descKey (r : Row) : Option Int :=
  let c := clean (r.getD 1 "")
  if c = "" then some 0 else pyInt c

/-- Remarks rows contributing to the description: at least 7 columns and
marker column F. -/
def remarkChosen (remarques_rows : List Row) : List Row :=
  remarques_rows.filter (fun r =>
    decide (7 ≤ r.length) && (clean (r.getD 2 "") == "F"))

/-- extract_description: chosen rows sorted by numeric sequence when every
key parses (otherwise left in encounter order, the swallowed exception),
non-empty cleaned texts joined by single spaces, line-break markup replaced
by spaces, and a final strip; empty becomes none. -/
def extract_description (remarques_rows : List Row) : Option String :=
  let chosen := remarkChosen remarques_rows
  let ordered :=
    if chosen.all (fun r => (descKey r).isSome) then
      stableSortBy (fun r => (descKey r).getD 0) chosen
    else chosen
  let text := String.intercalate " "
    (ordered.filterMap (fun r =>
      let t := clean (r.getLastD "")
      if t = "" then none else some t))
  let text2 := String.mk (stripEdges isPySpace (stripBr text.toList))
  if text2 = "" then none else some text2

/-- extract_addenda: rows of ADDENDA.TXT (none when the table is absent)
whose first field cleans to the id and whose raw last field is non-empty;
their cleaned last fields joined by spaces with line-break markup replaced. -/
def extract_addenda (addendaRows : Option (List Row)) (id : String) :
    Option String :=
  match addendaRows with
  | none => none
  | some rows =>
    let chunks := rows.filterMap (fun r =>
      if !r.isEmpty && (clean (r.headD "") == id) && (r.getLastD "" != "") then
        some (clean (r.getLastD ""))
      else none)
    if chunks.isEmpty then none
    else some (String.mk (stripBr (String.intercalate " " chunks).toList))

/-- Proximity entries coming from characteristics rows with category PROX,
label-mapped. -/
def proxFromCarac (carac_rows : List Row) : List String :=
  carac_rows.filterMap (fun r =>
    if decide (3 ≤ r.length) && (clean (r.getD 1 "") == "PROX") then
      some (VAL_LABEL_get (clean (r.getD 2 "")))
    else none)

/-- Pieces of the addenda fallback: split on semicolon or comma plus
spaces, markup stripped, stripped, empties dropped. -/
def proxPieces (seg : List Char) : List String :=
  (splitSC seg []).filterMap (fun item =>
    let s := String.mk (stripEdges isPySpace (stripTags item))
    if s = "" then none else some s)

/-- The collected proximity candidates of extract_proximites, before the
dedup loop: characteristics rows first, the addenda regex fallback when
they yield nothing. -/
def proxRaw (addenda_text : String) (carac_rows : List Row) : List String :=
  let prox0 := proxFromCarac carac_rows
  if prox0.isEmpty ∧ addenda_text ≠ "" then
    match searchProx addenda_text.toList with
    | some seg => proxPieces seg
    | none => []
  else prox0

/-- extract_proximites of import_centris.py: characteristics first, the
addenda regex fallback when that yields nothing, then the dedup loop. -/
def extract_proximites (addenda_text : String) (carac_rows : List Row) :
    String × List String :=
  let out := dedupSeen [] (proxRaw addenda_text carac_rows)
  ((if out.isEmpty then "" else String.intercalate ", " out), out)

/-- One entry of the structured characteristics list. -/
structure Carac where
  cat : String
  val : String
deriving Repr, DecidableEq, Inhabited

/-- One characteristics row: needs 3 columns, PROX rows are skipped, labels
are mapped with fallback to the raw code, optional parenthesized suffix
from column 3. -/
def caracItem (r : Row) : Option (String × Carac) :=
  if r.length < 3 then none
  else
    let cat := clean (r.getD 1 "")
    let val := clean (r.getD 2 "")
    if cat == "PROX" then none
    else
      let car_label := CAT_LABEL_get cat
      let label := VAL_LABEL_get val
      let extra := if r.length > 3 then clean (r.getD 3 "") else ""
      let suffix := if extra ≠ "" then " (" ++ extra ++ ")" else ""
      some (car_label ++ ": " ++ label ++ suffix, ⟨car_label, label⟩)

/-- build_caracteristiques: rendered text and structured list, in row
order, with no deduplication. -/
def build_caracteristiques (carac_rows : List Row) : String × List Carac :=
  let items := carac_rows.filterMap caracItem
  ((if items.isEmpty then "" else String.intercalate ", " (items.map Prod.fst)),
   items.map Prod.snd)

/-- Listing status column. -/
inductive Status where
  | ACTIVE
  | SOLD
deriving Repr, DecidableEq, Inhabited

/-- The persistent fields of a Listing row that the import command reads or
writes (the auto-managed first_seen_at / updated_at columns are not
modelled).  The listing's stored photo set is carried inline as
(sequence, url) pairs. -/
@[ext]
structure EntryData where
  slug : String
  prix : Option Nat
  adresse : String
  nombre_pieces : Option Nat
  nombre_chambres : Option Nat
  nombre_sdb : Option Nat
  superficie_habitable : Option Nat
  superficie_terrain : Option Nat
  annee_construction : Option Nat
  inclus : String
  description : String
  proximites_text : String
  proximites : List String
  caracteristiques_text : String
  caracteristiques : List Carac
  status : Status
  sold_at : Option Nat
  last_seen_at : Option Nat
  photos : List (Nat × String)
deriving Repr, DecidableEq, Inhabited

/-- The catalog: an association list keyed by centris_id.  The database
enforces key uniqueness (centris_id is the primary key), so theorems about
runs assume pairwise distinct keys. -/
abbrev Catalog := List (String × EntryData)

/-- Primary-key lookup. -/
def lookupCat (cat : Catalog) (id : String) : Option EntryData :=
  (cat.find? (fun p => p.1 == id)).map Prod.snd

/-- In-place row update of the (unique) row with the given key. -/
def updateFirst (id : String) (f : EntryData → EntryData) :
    Catalog → Catalog
  | [] => []
  | p :: rest =>
    if p.1 == id then (p.1, f p.2) :: rest
    else p :: updateFirst id f rest

/-- Per-character behaviour of the slugify model below. -/
def slugChar (c : Char) : Option Char :=
  if c.isAlphanum then some c.toLower
  else if c == '-' || c == '_' then some c
  else if c == ' ' then some '-'
  else none

/-- django.utils.text.slugify, an external library helper reached only by
ensure_slug when a stored slug is empty: lowercase, keep alphanumerics,
hyphens and underscores, spaces to hyphens (the inputs here are ASCII),
with the [:64] truncation applied by ensure_slug. -/
def slugify64 (s : String) : String :=
  String.mk ((s.toList.filterMap slugChar).take 64)

/-- ensure_slug of the Listing model: only fills an empty slug. -/
def ensure_slug (id : String) (slug : String) : String :=
  if slug = "" then slugify64 ("listing-" ++ id) else slug

/-- The decoded tables of one bundle.  A missing table is the empty list
(read_csv_from_zip) except ADDENDA.TXT whose absence is observable
(extract_addenda returns early), hence the Option. -/
structure Bundle where
  rows_ins : List Row
  rows_rem : List Row
  rows_car : List Row
  rows_pho : List Row
  rows_uni : List Row
  rows_pie : List Row
  addenda : Option (List Row)
deriving Repr

/-- defaultdict grouping by cleaned first field: the rows retrieved for one
id, in file order (by_rem.get(id_, []) and friends). -/
def groupFor (rows : List Row) (id : String) : List Row :=
  rows.filter (fun r => !r.isEmpty && (clean (r.headD "") == id))

/-- The per-row derived values computed in the body of the main loop. -/
structure Extracted where
  prix : Option Nat
  adresse : String
  annee : Option Nat
  descr : String
  proximites_text : String
  proximites : List String
  car_text : String
  car_arr : List Carac
  n_pieces : Option Nat
  n_chambres : Option Nat
  n_sdb : Option Nat
deriving Repr, DecidableEq

/-- The extraction block of the main loop of Command.handle. -/
def extractFields (b : Bundle) (id : String) (row : Row) : Extracted :=
  let addenda_txt := (extract_addenda b.addenda id).getD ""
  let prox := extract_proximites addenda_txt (groupFor b.rows_car id)
  let car := build_caracteristiques (groupFor b.rows_car id)
  let units := extract_units (groupFor b.rows_uni id) (groupFor b.rows_pie id)
  { prix := extract_price row
    adresse := (extract_address row).getD ""
    annee := extract_year row
    descr := (extract_description (groupFor b.rows_rem id)).getD ""
    proximites_text := prox.1
    proximites := prox.2
    car_text := car.1
    car_arr := car.2
    n_pieces := units.1
    n_chambres := units.2.1
    n_sdb := units.2.2 }

/-- get_or_create defaults: the freshly created catalog row.  The created
branch then calls ensure_slug, a no-op since the slug is non-empty. -/
def createEntry (b : Bundle) (now : Nat) (id : String) (row : Row) :
    EntryData :=
  let f := extractFields b id row
  { slug := "listing-" ++ id
    prix := f.prix
    adresse := f.adresse
    nombre_pieces := f.n_pieces
    nombre_chambres := f.n_chambres
    nombre_sdb := f.n_sdb
    superficie_habitable := none
    superficie_terrain := none
    annee_construction := f.annee
    inclus := ""
    description := f.descr
    proximites_text := f.proximites_text
    proximites := f.proximites
    caracteristiques_text := f.car_text
    caracteristiques := f.car_arr
    status := Status.ACTIVE
    sold_at := none
    last_seen_at := some now
    photos := [] }

/-- The update branch of the upsert: overwrite the mutable fields,
reactivate, clear sold_at, refresh last_seen_at, fill an empty slug. -/
def applyUpdate (b : Bundle) (now : Nat) (id : String) (row : Row)
    (e : EntryData) : EntryData :=
  let f := extractFields b id row
  { e with
    prix := f.prix
    adresse := f.adresse
    nombre_pieces := f.n_pieces
    nombre_chambres := f.n_chambres
    nombre_sdb := f.n_sdb
    superficie_habitable := none
    superficie_terrain := none
    annee_construction := f.annee
    inclus := ""
    description := f.descr
    proximites_text := f.proximites_text
    proximites := f.proximites
    caracteristiques_text := f.car_text
    caracteristiques := f.car_arr
    status := Status.ACTIVE
    sold_at := none
    last_seen_at := some now
    slug := ensure_slug id e.slug }

/-- Cleaned id of a primary row. -/
def rowId (r : Row) : String := clean (r.headD "")

/-- Primary rows are processed only when non-empty with a non-empty
cleaned id. -/
def rowOk (r : Row) : Bool := !r.isEmpty && rowId r != ""

/-- get_or_create on centris_id plus the created/updated branches; returns
the new catalog and whether a row was created. -/
def upsertOp (b : Bundle) (now : Nat) (id : String) (row : Row)
    (cat : Catalog) : Catalog × Bool :=
  match lookupCat cat id with
  | none => (cat ++ [(id, createEntry b now id row)], true)
  | some _ => (updateFirst id (applyUpdate b now id row) cat, false)

/-- bulk_create numbering: sequence i+1 in extraction order. -/
def renumberFrom (k : Nat) : List (Nat × String) → List (Nat × String)
  | [] => []
  | p :: rest => (k, p.2) :: renumberFrom (k + 1) rest

/-- Photo replacement: only when this run extracted at least one photo for
the id are the stored photos deleted and recreated, renumbered 1..N. -/
def photoOp (b : Bundle) (id : String) (cat : Catalog) : Catalog :=
  let photos := extract_photos (groupFor b.rows_pho id)
  if photos.isEmpty then cat
  else updateFirst id (fun e => { e with photos := renumberFrom 1 photos }) cat

/-- Run counters of Command.handle. -/
structure Counts where
  total : Nat := 0
  added : Nat := 0
  updated : Nat := 0
  sold : Nat := 0
deriving Repr, DecidableEq

/-- One iteration of the main loop of Command.handle: skip rows without a
cleaned id, otherwise upsert, then photos, bump counters, record the id. -/
def importRow (b : Bundle) (now : Nat)
    (st : Catalog × Counts × List String) (row : Row) :
    Catalog × Counts × List String :=
  let (cat, cnt, seen) := st
  if rowOk row then
    let id := rowId row
    let up := upsertOp b now id row cat
    let cat2 := photoOp b id up.1
    (cat2,
     { cnt with
       total := cnt.total + 1
       added := cnt.added + (if up.2 then 1 else 0)
       updated := cnt.updated + (if up.2 then 0 else 1) },
     seen ++ [id])
  else st

/-- The sold-marking bulk update: every ACTIVE row whose id was not seen in
this run flips to SOLD with sold_at = run timestamp; update() returns the
number of affected rows. -/
def markSold (now : Nat) (seen : List String) (cat : Catalog) :
    Catalog × Nat :=
  (cat.map (fun p =>
      if p.2.status = Status.ACTIVE ∧ p.1 ∉ seen then
        (p.1, { p.2 with status := Status.SOLD, sold_at := some now })
      else p),
   cat.countP (fun p => decide (p.2.status = Status.ACTIVE ∧ p.1 ∉ seen)))

/-- The reconciliation of Command.handle without the audit write: fold the
primary rows, then retire missing ids unless disabled by --no-mark-sold. -/
def runImport (b : Bundle) (doMarkSold : Bool) (now : Nat) (cat : Catalog) :
    Catalog × Counts × List String :=
  let st := b.rows_ins.foldl (importRow b now) (cat, {}, [])
  if doMarkSold then
    let ms := markSold now st.2.2 st.1
    (ms.1, { st.2.1 with sold := ms.2 }, st.2.2)
  else st

/-- The FetchLog audit row (the counter columns; file/source naming and the
wall-clock duration carry no information in the model). -/
structure FetchLog where
  items_total : Nat
  items_added : Nat
  items_updated : Nat
  items_marked_sold : Nat
deriving Repr, DecidableEq

/-- The database state the transaction protects: the listing catalog
(photos inline) and the append-only FetchLog table. -/
structure DbState where
  catalog : Catalog
  logs : List FetchLog
deriving Repr, DecidableEq

/-- One database write inside the transaction; the failure oracle makes
write number k fail, modelling a database error at any point of the run. -/
def tryOp (failAt : Option Nat) (k : Nat) (f : α → α) (a : α) :
    Except Unit (α × Nat) :=
  if failAt = some k then Except.error () else Except.ok (f a, k + 1)

/-- The row loop with its database writes made explicit: the upsert write
and, when photos were extracted, the photo delete-and-recreate write. -/
def reconRows (b : Bundle) (now : Nat) (failAt : Option Nat) :
    List Row → Catalog × Counts × List String × Nat →
    Except Unit (Catalog × Counts × List String × Nat)
  | [], st => Except.ok st
  | row :: rest, (cat, cnt, seen, k) =>
    if rowOk row then
      let id := rowId row
      match tryOp failAt k (fun c => (upsertOp b now id row c).1) cat with
      | Except.error e => Except.error e
      | Except.ok (cat1, k1) =>
        let created := (upsertOp b now id row cat).2
        let next :=
          if (extract_photos (groupFor b.rows_pho id)).isEmpty then
            Except.ok (cat1, k1)
          else tryOp failAt k1 (photoOp b id) cat1
        match next with
        | Except.error e => Except.error e
        | Except.ok (cat2, k2) =>
          reconRows b now failAt rest
            (cat2,
             { cnt with
               total := cnt.total + 1
               added := cnt.added + (if created then 1 else 0)
               updated := cnt.updated + (if created then 0 else 1) },
             seen ++ [id], k2)
    else reconRows b now failAt rest (cat, cnt, seen, k)

/-- The body of the transaction.atomic block of Command.handle: the row
loop, the sold update (when enabled) and the FetchLog insert, as one
sequence of database writes any one of which may fail. -/
def reconAtomic (b : Bundle) (doMarkSold : Bool) (now : Nat)
    (failAt : Option Nat) (st : DbState) : Except Unit DbState :=
  match reconRows b now failAt b.rows_ins (st.catalog, {}, [], 0) with
  | Except.error e => Except.error e
  | Except.ok (cat1, cnt, seen, k) =>
    let afterSold :=
      if doMarkSold then
        (tryOp failAt k (fun c => (markSold now seen c).1) cat1).map
          (fun p => (p.1, (markSold now seen cat1).2, p.2))
      else Except.ok (cat1, 0, k)
    match afterSold with
    | Except.error e => Except.error e
    | Except.ok (cat2, sold, k2) =>
      (tryOp failAt k2 (fun logs =>
          logs ++ [{ items_total := cnt.total
                     items_added := cnt.added
                     items_updated := cnt.updated
                     items_marked_sold := sold }])
        st.logs).map (fun p => { catalog := cat2, logs := p.1 })

/-- transaction.atomic around the reconciliation: commit the new state on
success, roll every catalog mutation and the audit insert back on any
failure. -/
def handleRun (b : Bundle) (doMarkSold : Bool) (now : Nat)
    (failAt : Option Nat) (st : DbState) : DbState :=
  match reconAtomic b doMarkSold now failAt st with
  | Except.ok st2 => st2
  | Except.error _ => st

/-- Python max() over a list of dates (dates modelled as integers),
meaningful for non-empty lists. -/
def listMax (l : List Int) : Int :=
  l.foldl max (l.headD 0)

/-- URL composition for a dated bundle name; the strftime rendering of the
abstract integer date is modelled by toString (injective, which is all the
claims need). -/
def compose_url (base : String) (d : Int) : String :=
  String.mk ((base.toList.reverse.dropWhile (fun c => c == '/')).reverse)
    ++ "/NOMADESMARKETING" ++ toString d ++ ".zip"

/-- The probe loop of find_latest_available: HEAD today, today-1, today-2
in that order, first success wins. -/
def probeFallback (base : String) (today : Int) (headOk : Int → Bool) :
    Except Unit (String × Int) :=
  if headOk today then Except.ok (compose_url base today, today)
  else if headOk (today - 1) then
    Except.ok (compose_url base (today - 1), today - 1)
  else if headOk (today - 2) then
    Except.ok (compose_url base (today - 2), today - 2)
  else Except.error ()

/-- find_latest_available: the index listing strategy (idxDates = none
models an index fetch that raised; the listing itself is an oracle), the
probe fallback, and the final RuntimeError as the error case. -/
def find_latest_available (base : String) :
    Option (List Int) → Int → (Int → Bool) → Except Unit (String × Int)
  | some dates, today, headOk =>
    if dates.isEmpty then probeFallback base today headOk
    else
      let eligible := dates.filter (fun d => decide (d ≤ today))
      let best := if eligible.isEmpty then listMax dates else listMax eligible
      Except.ok (compose_url base best, best)
  | none, today, headOk => probeFallback base today headOk

theorem le_foldl_max (l : List Int) (a : Int) :
    a ≤ l.foldl max a ∧ ∀ d ∈ l, d ≤ l.foldl max a := by
  induction l generalizing a with
  | nil => simp
  | cons x xs ih =>
    obtain ⟨h1, h2⟩ := ih (max a x)
    refine ⟨le_trans (le_max_left a x) h1, ?_⟩
    intro d hd
    rcases List.mem_cons.mp hd with rfl | hd
    · exact le_trans (le_max_right a d) h1
    · exact h2 d hd

theorem foldl_max_mem (l : List Int) (a : Int) :
    l.foldl max a = a ∨ l.foldl max a ∈ l := by
  induction l generalizing a with
  | nil => left; rfl
  | cons x xs ih =>
    simp only [List.foldl_cons]
    rcases ih (max a x) with h | h
    · rcases max_choice a x with hm | hm
      · left; rw [h, hm]
      · right
        rw [h, hm]
        exact List.mem_cons_self x xs
    · right
      exact List.mem_cons_of_mem x h

/-- listMax of a non-empty list is an element. -/
theorem listMax_mem {l : List Int} (h : l ≠ []) : listMax l ∈ l := by
  match l with
  | x :: xs =>
    rcases foldl_max_mem (x :: xs) ((x :: xs).headD 0) with h2 | h2
    · unfold listMax
      rw [h2]
      exact List.mem_cons_self x xs
    · exact h2

/-- listMax bounds every element. -/
theorem le_listMax {l : List Int} {d : Int} (h : d ∈ l) : d ≤ listMax l := by
  exact (le_foldl_max l (l.headD 0)).2 d h

theorem mem_insKey (key : α → Int) (x a : α) (l : List α) :
    a ∈ insKey key x l ↔ a = x ∨ a ∈ l := by
  induction l with
  | nil => simp [insKey]
  | cons y ys ih =>
    simp only [insKey]
    split
    · simp only [List.mem_cons, ih]
      tauto
    · simp [List.mem_cons]

theorem insKey_pairwise (key : α → Int) (x : α) (l : List α)
    (h : l.Pairwise (fun a b => key a ≤ key b)) :
    (insKey key x l).Pairwise (fun a b => key a ≤ key b) := by
  induction l with
  | nil => simp [insKey]
  | cons y ys ih =>
    rw [List.pairwise_cons] at h
    obtain ⟨hy, hys⟩ := h
    simp only [insKey]
    split
    · rw [List.pairwise_cons]
      refine ⟨?_, ih hys⟩
      intro a ha
      rw [mem_insKey] at ha
      rcases ha with rfl | ha
      · omega
      · exact hy a ha
    · rw [List.pairwise_cons]
      constructor
      · intro a ha
        rcases List.mem_cons.mp ha with rfl | ha
        · omega
        · exact le_trans (by omega) (hy a ha)
      · exact List.Pairwise.cons hy hys

/-- The stable sort is sorted by its key (ascending). -/
theorem stableSortBy_pairwise (key : α → Int) (l : List α) :
    (stableSortBy key l).Pairwise (fun a b => key a ≤ key b) := by
  induction l with
  | nil => simp [stableSortBy]
  | cons x xs ih => exact insKey_pairwise key x _ ih

theorem insKey_perm (key : α → Int) (x : α) (l : List α) :
    (insKey key x l).Perm (x :: l) := by
  induction l with
  | nil => simp [insKey]
  | cons y ys ih =>
    simp only [insKey]
    split
    · exact (ih.cons y).trans (List.Perm.swap x y ys)
    · exact List.Perm.refl _

/-- The stable sort is a permutation of its input. -/
theorem stableSortBy_perm (key : α → Int) (l : List α) :
    (stableSortBy key l).Perm l := by
  induction l with
  | nil => simp [stableSortBy]
  | cons x xs ih =>
    exact (insKey_perm key x _).trans (ih.cons x)

/-- The recreated photo rows carry sequences k, k+1, ... in order. -/
theorem renumberFrom_map_fst (k : Nat) (l : List (Nat × String)) :
    (renumberFrom k l).map Prod.fst = List.range' k l.length := by
  induction l generalizing k with
  | nil => simp [renumberFrom]
  | cons p rest ih => simp [renumberFrom, List.range', ih]

/-- The recreated photo rows keep the urls in order. -/
theorem renumberFrom_map_snd (k : Nat) (l : List (Nat × String)) :
    (renumberFrom k l).map Prod.snd = l.map Prod.snd := by
  induction l generalizing k with
  | nil => simp [renumberFrom]
  | cons p rest ih => simp [renumberFrom, ih]

theorem mem_dedupSeen (seen : List String) (l : List String) (a : String) :
    a ∈ dedupSeen seen l ↔ a ∈ l ∧ a ≠ "" ∧ a ∉ seen := by
  induction l generalizing seen with
  | nil => simp [dedupSeen]
  | cons p ps ih =>
    by_cases hp : p ≠ "" ∧ p ∉ seen
    · obtain ⟨hp1, hp2⟩ := hp
      rw [show dedupSeen seen (p :: ps) = p :: dedupSeen (p :: seen) ps from by
            simp [dedupSeen, hp1, hp2]]
      simp only [List.mem_cons, ih (p :: seen)]
      constructor
      · rintro (rfl | ⟨ha, hne, hns⟩)
        · exact ⟨Or.inl rfl, hp1, hp2⟩
        · exact ⟨Or.inr ha, hne, fun hc => hns (Or.inr hc)⟩
      · rintro ⟨ha | ha, hne, hns⟩
        · exact Or.inl ha
        · by_cases hap : a = p
          · exact Or.inl hap
          · refine Or.inr ⟨ha, hne, fun hc => ?_⟩
            rcases hc with h1 | h1
            · exact hap h1
            · exact hns h1
    · rw [show dedupSeen seen (p :: ps) = dedupSeen seen ps from by
            simp only [dedupSeen]
            rw [if_neg hp]]
      rw [ih seen]
      push_neg at hp
      constructor
      · rintro ⟨ha, hne, hns⟩
        exact ⟨List.mem_cons_of_mem p ha, hne, hns⟩
      · rintro ⟨ha, hne, hns⟩
        rcases List.mem_cons.mp ha with rfl | ha2
        · exact absurd (hp hne) hns
        · exact ⟨ha2, hne, hns⟩

/-- The deduplicated proximity list has no duplicates. -/
theorem dedupSeen_nodup (seen : List String) (l : List String) :
    (dedupSeen seen l).Nodup := by
  induction l generalizing seen with
  | nil => simp [dedupSeen]
  | cons p ps ih =>
    simp only [dedupSeen]
    split
    · refine List.Nodup.cons ?_ (ih (p :: seen))
      intro hc
      rw [mem_dedupSeen] at hc
      exact hc.2.2 (List.mem_cons_self p seen)
    · exact ih seen

/-- The deduplicated proximity list preserves encounter order: it is a
sublist of the raw collected list. -/
theorem dedupSeen_sublist (seen : List String) (l : List String) :
    (dedupSeen seen l).Sublist l := by
  induction l generalizing seen with
  | nil => simp [dedupSeen]
  | cons p ps ih =>
    simp only [dedupSeen]
    split
    · exact (ih (p :: seen)).cons₂ p
    · exact (ih seen).cons p

/-- The primary rows that the loop actually processes. -/
def okRows (rows : List Row) : List Row := rows.filter rowOk

/-- The cleaned ids of the processed primary rows, duplicates included
(seen_ids is the set of these). -/
def idsOf (rows : List Row) : List String := (okRows rows).map rowId

/-- The processed primary rows carrying a given id, in file order. -/
def rowsFor (rows : List Row) (i : String) : List Row :=
  rows.filter (fun r => rowOk r && (rowId r == i))

/-- First occurrences of ids that are new relative to the given key set, in
encounter order: exactly the ids for which the run creates a row. -/
def newIdsRec (keys : List String) : List Row → List String
  | [] => []
  | row :: rest =>
    if rowOk row then
      if rowId row ∈ keys then newIdsRec keys rest
      else rowId row :: newIdsRec (keys ++ [rowId row]) rest
    else newIdsRec keys rest

/-- Net effect on the catalog row of id i of processing one primary row
carrying i: upsert (create or update) then conditional photo
replacement. -/
def entryAfter (b : Bundle) (now : Nat) (i : String) (row : Row)
    (prev : Option EntryData) : EntryData :=
  let base :=
    match prev with
    | none => createEntry b now i row
    | some e => applyUpdate b now i row e
  let ph := extract_photos (groupFor b.rows_pho i)
  if ph.isEmpty then base else { base with photos := renumberFrom 1 ph }

/-- The catalog row of id i after the whole row loop over rows, starting
from stored state prev: the last processed row carrying i wins. -/
def entryFinal (b : Bundle) (now : Nat) (rows : List Row) (i : String)
    (prev : Option EntryData) : EntryData :=
  match (rowsFor rows i).getLast?, prev with
  | some row, p => entryAfter b now i row p
  | none, some e => e
  | none, none => default

theorem lookupCat_eq_none {cat : Catalog} {i : String} :
    lookupCat cat i = none ↔ i ∉ cat.map Prod.fst := by
  unfold lookupCat
  rw [Option.map_eq_none', List.find?_eq_none]
  simp only [List.mem_map, beq_iff_eq]
  constructor
  · rintro h ⟨p, hp, rfl⟩
    exact h p hp rfl
  · intro h p hp hpe
    exact h ⟨p, hp, hpe⟩

theorem lookupCat_cons (p : String × EntryData) (cat : Catalog) (i : String) :
    lookupCat (p :: cat) i =
      if p.1 == i then some p.2 else lookupCat cat i := by
  unfold lookupCat
  cases h : p.1 == i <;> simp [List.find?_cons, h]

theorem lookupCat_append (l1 l2 : Catalog) (i : String) :
    lookupCat (l1 ++ l2) i =
      match lookupCat l1 i with
      | some e => some e
      | none => lookupCat l2 i := by
  induction l1 with
  | nil => simp [lookupCat]
  | cons p t ih =>
    rw [List.cons_append, lookupCat_cons, lookupCat_cons]
    split
    · rfl
    · exact ih

/-- Lookup inside a key-preserving per-row map of the catalog. -/
theorem lookupCat_map (g : String → EntryData → EntryData) (cat : Catalog)
    (i : String) :
    lookupCat (cat.map (fun p => (p.1, g p.1 p.2))) i =
      (lookupCat cat i).map (g i) := by
  induction cat with
  | nil => simp [lookupCat]
  | cons p t ih =>
    rw [List.map_cons, lookupCat_cons, lookupCat_cons]
    by_cases h : p.1 == i
    · have : p.1 = i := by simpa using h
      subst this
      simp [h]
    · simp only [h]
      rw [if_neg (by simp), if_neg (by simp)]
      exact ih

theorem updateFirst_keys (id : String) (f : EntryData → EntryData)
    (cat : Catalog) :
    (updateFirst id f cat).map Prod.fst = cat.map Prod.fst := by
  induction cat with
  | nil => rfl
  | cons p t ih =>
    simp only [updateFirst]
    split
    · simp
    · simp [ih]

theorem updateFirst_of_not_mem (id : String) (f : EntryData → EntryData)
    (cat : Catalog) (h : ∀ p ∈ cat, p.1 ≠ id) :
    updateFirst id f cat = cat := by
  induction cat with
  | nil => rfl
  | cons p t ih =>
    simp only [updateFirst]
    rw [if_neg]
    · rw [ih]
      intro q hq
      exact h q (List.mem_cons_of_mem p hq)
    · simpa using h p (List.mem_cons_self p t)

theorem updateFirst_append_of_not_mem (id : String)
    (f : EntryData → EntryData) (l1 l2 : Catalog)
    (h : ∀ p ∈ l1, p.1 ≠ id) :
    updateFirst id f (l1 ++ l2) = l1 ++ updateFirst id f l2 := by
  induction l1 with
  | nil => rfl
  | cons p t ih =>
    simp only [List.cons_append, updateFirst]
    rw [if_neg (by simpa using h p (List.mem_cons_self p t))]
    exact congrArg (fun l => p :: l)
      (ih (fun q hq => h q (List.mem_cons_of_mem p hq)))

theorem updateFirst_comp (id : String) (f g : EntryData → EntryData)
    (cat : Catalog) :
    updateFirst id f (updateFirst id g cat) =
      updateFirst id (fun e => f (g e)) cat := by
  induction cat with
  | nil => rfl
  | cons p t ih =>
    simp only [updateFirst]
    split
    · simp only [updateFirst]
      rename_i hp
      rw [if_pos hp]
    · simp only [updateFirst]
      rename_i hp
      rw [if_neg hp, ih]

/-- getLast? of a cons in terms of the tail. -/
theorem getLast?_cons_getD (row : Row) (l : List Row) :
    (row :: l).getLast? = some ((l.getLast?).getD row) := by
  induction l generalizing row with
  | nil => rfl
  | cons x xs ih =>
    rw [List.getLast?_cons_cons, ih x]
    simp

/-- Ids listed by newIdsRec are new relative to the key set. -/
theorem mem_newIdsRec_not_mem (keys : List String) (rows : List Row)
    (i : String) (h : i ∈ newIdsRec keys rows) : i ∉ keys := by
  induction rows generalizing keys with
  | nil => simp [newIdsRec] at h
  | cons row rest ih =>
    simp only [newIdsRec] at h
    by_cases hok : rowOk row
    · rw [if_pos hok] at h
      by_cases hmem : rowId row ∈ keys
      · exact ih keys (by rwa [if_pos hmem] at h)
      · rw [if_neg hmem] at h
        rcases List.mem_cons.mp h with rfl | h2
        · exact hmem
        · intro hc
          exact ih (keys ++ [rowId row]) h2 (List.mem_append_left _ hc)
    · exact ih keys (by rwa [if_neg hok] at h)

/-- newIdsRec never lists more ids than there are processed rows. -/
theorem newIdsRec_length_le (keys : List String) (rows : List Row) :
    (newIdsRec keys rows).length ≤ (okRows rows).length := by
  induction rows generalizing keys with
  | nil => simp [newIdsRec, okRows]
  | cons row rest ih =>
    simp only [newIdsRec, okRows, List.filter]
    by_cases hok : rowOk row
    · rw [if_pos hok, hok]
      by_cases hmem : rowId row ∈ keys
      · rw [if_pos hmem]
        simp only [List.length_cons]
        exact le_trans (ih keys) (Nat.le_succ _)
      · rw [if_neg hmem]
        simp only [List.length_cons, Nat.succ_le_succ_iff]
        exact ih (keys ++ [rowId row])
    · rw [if_neg hok, Bool.not_eq_true] at *
      rw [hok]
      exact ih keys

/-- Appending the new ids keeps the key set duplicate-free. -/
theorem keys_newIdsRec_nodup (keys : List String) (rows : List Row)
    (h : keys.Nodup) : (keys ++ newIdsRec keys rows).Nodup := by
  induction rows generalizing keys with
  | nil => simpa [newIdsRec]
  | cons row rest ih =>
    simp only [newIdsRec]
    by_cases hok : rowOk row
    · rw [if_pos hok]
      by_cases hmem : rowId row ∈ keys
      · rw [if_pos hmem]
        exact ih keys h
      · rw [if_neg hmem]
        have h2 : (keys ++ [rowId row]).Nodup := by
          simp [List.nodup_append, h, hmem]
        have := ih (keys ++ [rowId row]) h2
        rwa [List.append_assoc] at this
    · rw [if_neg hok]
      exact ih keys h

/-- Every processed id ends up either among the initial keys or among the
new ids. -/
theorem idsOf_mem_keys_or_newIds (keys : List String) (rows : List Row)
    (i : String) (h : i ∈ idsOf rows) :
    i ∈ keys ∨ i ∈ newIdsRec keys rows := by
  induction rows generalizing keys with
  | nil => simp [idsOf, okRows] at h
  | cons row rest ih =>
    simp only [newIdsRec]
    by_cases hok : rowOk row
    · have hids : idsOf (row :: rest) = rowId row :: idsOf rest := by
        simp [idsOf, okRows, List.filter, hok]
      rw [hids] at h
      rw [if_pos hok]
      by_cases hmem : rowId row ∈ keys
      · rw [if_pos hmem]
        rcases List.mem_cons.mp h with rfl | h2
        · exact Or.inl hmem
        · exact ih keys h2
      · rw [if_neg hmem]
        rcases List.mem_cons.mp h with rfl | h2
        · exact Or.inr (List.mem_cons_self _ _)
        · rcases ih (keys ++ [rowId row]) h2 with hk | hn
          · rcases List.mem_append.mp hk with hk | hk
            · exact Or.inl hk
            · simp at hk
              subst hk
              exact Or.inr (List.mem_cons_self _ _)
          · exact Or.inr (List.mem_cons_of_mem _ hn)
    · have hids : idsOf (row :: rest) = idsOf rest := by
        simp only [idsOf, okRows, List.filter]
        rw [Bool.not_eq_true] at hok
        rw [hok]
      rw [hids] at h
      rw [if_neg (by simpa using hok)]
      exact ih keys h

/-- When every processed id is already a key, no row is created. -/
theorem newIdsRec_eq_nil (keys : List String) (rows : List Row)
    (h : ∀ i ∈ idsOf rows, i ∈ keys) : newIdsRec keys rows = [] := by
  induction rows generalizing keys with
  | nil => rfl
  | cons row rest ih =>
    simp only [newIdsRec]
    by_cases hok : rowOk row
    · have hids : idsOf (row :: rest) = rowId row :: idsOf rest := by
        simp [idsOf, okRows, List.filter, hok]
      rw [hids] at h
      rw [if_pos hok, if_pos (h (rowId row) (List.mem_cons_self _ _))]
      exact ih keys (fun i hi => h i (List.mem_cons_of_mem _ hi))
    · have hf : rowOk row = false := by
        simpa using hok
      have hids : idsOf (row :: rest) = idsOf rest := by
        simp [idsOf, okRows, List.filter, hf]
      rw [hids] at h
      rw [if_neg hok]
      exact ih keys h

theorem slugify64_listing_ne (i : String) : slugify64 ("listing-" ++ i) ≠ "" := by
  intro hc
  have h1 : ((("listing-" ++ i).toList.filterMap slugChar).take 64) = "".data :=
    congrArg String.data hc
  have h2 : ("listing-" ++ i).toList = 'l' :: ("isting-".toList ++ i.toList) := rfl
  rw [h2] at h1
  simp [List.filterMap_cons, show slugChar 'l' = some 'l' from rfl] at h1

theorem ensure_slug_idem (i s : String) :
    ensure_slug i (ensure_slug i s) = ensure_slug i s := by
  unfold ensure_slug
  split
  · rw [if_neg (slugify64_listing_ne i)]
  · rfl

theorem ensure_slug_listing (i : String) :
    ensure_slug i ("listing-" ++ i) = "listing-" ++ i := by
  unfold ensure_slug
  rw [if_neg]
  intro hc
  have h1 : ("listing-" ++ i).data = "".data := congrArg String.data hc
  have h2 : ("listing-" ++ i).data = 'l' :: ("isting-".toList ++ i.toList) := rfl
  rw [h2] at h1
  simp at h1

/-- Reprocessing an id within the same run, or in a later run, overwrites
the previous processing completely: the net effect only depends on the
latest row and the state the id had before the first processing. -/
theorem entryAfter_stable (b : Bundle) (now1 now2 : Nat) (i : String)
    (row1 row2 : Row) (prev : Option EntryData) :
    entryAfter b now2 i row2 (some (entryAfter b now1 i row1 prev)) =
      entryAfter b now2 i row2 prev := by
  cases prev with
  | none =>
    by_cases hph : (extract_photos (groupFor b.rows_pho i)).isEmpty <;>
      ext <;> simp [entryAfter, applyUpdate, createEntry, hph, ensure_slug_listing]
  | some e =>
    by_cases hph : (extract_photos (groupFor b.rows_pho i)).isEmpty <;>
      ext <;> simp [entryAfter, applyUpdate, createEntry, hph, ensure_slug_idem]

/-- The run timestamp only enters the processed row through last_seen_at. -/
theorem entryAfter_last_seen (b : Bundle) (now1 now2 : Nat) (i : String)
    (row : Row) (prev : Option EntryData) :
    entryAfter b now2 i row prev =
      { entryAfter b now1 i row prev with last_seen_at := some now2 } := by
  cases prev with
  | none =>
    by_cases hph : (extract_photos (groupFor b.rows_pho i)).isEmpty <;>
      ext <;> simp [entryAfter, applyUpdate, createEntry, hph]
  | some e =>
    by_cases hph : (extract_photos (groupFor b.rows_pho i)).isEmpty <;>
      ext <;> simp [entryAfter, applyUpdate, createEntry, hph]

theorem entryAfter_status (b : Bundle) (now : Nat) (i : String) (row : Row)
    (prev : Option EntryData) :
    (entryAfter b now i row prev).status = Status.ACTIVE := by
  cases prev with
  | none =>
    by_cases hph : (extract_photos (groupFor b.rows_pho i)).isEmpty <;>
      simp [entryAfter, applyUpdate, createEntry, hph]
  | some e =>
    by_cases hph : (extract_photos (groupFor b.rows_pho i)).isEmpty <;>
      simp [entryAfter, applyUpdate, createEntry, hph]

theorem entryAfter_sold_at (b : Bundle) (now : Nat) (i : String) (row : Row)
    (prev : Option EntryData) :
    (entryAfter b now i row prev).sold_at = none := by
  cases prev with
  | none =>
    by_cases hph : (extract_photos (groupFor b.rows_pho i)).isEmpty <;>
      simp [entryAfter, applyUpdate, createEntry, hph]
  | some e =>
    by_cases hph : (extract_photos (groupFor b.rows_pho i)).isEmpty <;>
      simp [entryAfter, applyUpdate, createEntry, hph]

/-- The stored photos after processing a row: replaced by the renumbered
extraction when it is non-empty, untouched otherwise. -/
theorem entryAfter_photos (b : Bundle) (now : Nat) (i : String) (row : Row)
    (prev : Option EntryData) :
    (entryAfter b now i row prev).photos =
      if (extract_photos (groupFor b.rows_pho i)).isEmpty then
        (match prev with
         | none => []
         | some e => e.photos)
      else renumberFrom 1 (extract_photos (groupFor b.rows_pho i)) := by
  cases prev with
  | none =>
    by_cases hph : (extract_photos (groupFor b.rows_pho i)).isEmpty <;>
      simp [entryAfter, applyUpdate, createEntry, hph]
  | some e =>
    by_cases hph : (extract_photos (groupFor b.rows_pho i)).isEmpty <;>
      simp [entryAfter, applyUpdate, createEntry, hph]

theorem importRow_skip (b : Bundle) (now : Nat)
    (st : Catalog × Counts × List String) (row : Row)
    (h : rowOk row = false) : importRow b now st row = st := by
  obtain ⟨cat, cnt, seen⟩ := st
  simp [importRow, h]

theorem importRow_new (b : Bundle) (now : Nat) (cat : Catalog) (cnt : Counts)
    (seen : List String) (row : Row) (hok : rowOk row = true)
    (hl : lookupCat cat (rowId row) = none) :
    importRow b now (cat, cnt, seen) row =
      (cat ++ [(rowId row, entryAfter b now (rowId row) row none)],
       { cnt with
         total := cnt.total + 1
         added := cnt.added + 1
         updated := cnt.updated },
       seen ++ [rowId row]) := by
  have hkeys : ∀ p ∈ cat, p.1 ≠ rowId row := by
    intro p hp hc
    exact (lookupCat_eq_none.mp hl) (List.mem_map.mpr ⟨p, hp, hc⟩)
  by_cases hph : (extract_photos (groupFor b.rows_pho (rowId row))).isEmpty
  · simp [importRow, hok, upsertOp, hl, photoOp, hph, entryAfter]
  · simp only [importRow, hok, if_true, upsertOp, hl, photoOp, hph,
      if_false, Bool.false_eq_true]
    rw [updateFirst_append_of_not_mem _ _ _ _ hkeys]
    simp [updateFirst, entryAfter, hph]

theorem importRow_upd (b : Bundle) (now : Nat) (cat : Catalog) (cnt : Counts)
    (seen : List String) (row : Row) (hok : rowOk row = true)
    (e0 : EntryData) (hl : lookupCat cat (rowId row) = some e0) :
    importRow b now (cat, cnt, seen) row =
      (updateFirst (rowId row)
         (fun e => entryAfter b now (rowId row) row (some e)) cat,
       { cnt with
         total := cnt.total + 1
         added := cnt.added
         updated := cnt.updated + 1 },
       seen ++ [rowId row]) := by
  by_cases hph : (extract_photos (groupFor b.rows_pho (rowId row))).isEmpty
  · have hfe : applyUpdate b now (rowId row) row =
        fun e => entryAfter b now (rowId row) row (some e) := by
      funext e
      simp [entryAfter, hph]
    simp only [importRow, hok, if_true, upsertOp, hl, photoOp, hph]
    rw [hfe]
    simp
  · have hfe : (fun e =>
        { applyUpdate b now (rowId row) row e with
          photos := renumberFrom 1
            (extract_photos (groupFor b.rows_pho (rowId row))) }) =
        fun e => entryAfter b now (rowId row) row (some e) := by
      funext e
      simp [entryAfter, hph]
    simp only [importRow, hok, if_true, upsertOp, hl, photoOp, hph,
      if_false, Bool.false_eq_true]
    rw [updateFirst_comp, hfe]
    simp

theorem rowsFor_cons (row : Row) (rest : List Row) (i : String) :
    rowsFor (row :: rest) i =
      if rowOk row && (rowId row == i) then row :: rowsFor rest i
      else rowsFor rest i := by
  unfold rowsFor
  rw [List.filter_cons]

theorem entryFinal_cons_ne (b : Bundle) (now : Nat) (row : Row)
    (rest : List Row) (i : String) (prev : Option EntryData)
    (h : rowOk row = false ∨ rowId row ≠ i) :
    entryFinal b now (row :: rest) i prev = entryFinal b now rest i prev := by
  unfold entryFinal
  rw [rowsFor_cons]
  have hc : (rowOk row && (rowId row == i)) = false := by
    rcases h with h | h
    · simp [h]
    · simp [h]
  rw [hc]
  simp

theorem entryFinal_cons_self (b : Bundle) (now : Nat) (row : Row)
    (rest : List Row) (hok : rowOk row = true) (prev : Option EntryData) :
    entryFinal b now (row :: rest) (rowId row) prev =
      entryFinal b now rest (rowId row)
        (some (entryAfter b now (rowId row) row prev)) := by
  unfold entryFinal
  rw [rowsFor_cons]
  have hc : (rowOk row && (rowId row == rowId row)) = true := by simp [hok]
  rw [hc]
  simp only [if_true]
  cases hrf : (rowsFor rest (rowId row)).getLast? with
  | none =>
    have hnil : rowsFor rest (rowId row) = [] := by
      cases hx : rowsFor rest (rowId row)
      · rfl
      · rw [hx, getLast?_cons_getD] at hrf
        cases hrf
    rw [hnil]
    simp
  | some row2 =>
    rw [getLast?_cons_getD, hrf]
    simp only [Option.getD_some]
    cases prev with
    | none => exact (entryAfter_stable b now now (rowId row) row row2 none).symm
    | some e =>
      exact (entryAfter_stable b now now (rowId row) row row2 (some e)).symm

theorem okRows_cons_true (row : Row) (rest : List Row) (h : rowOk row = true) :
    okRows (row :: rest) = row :: okRows rest := by
  simp [okRows, List.filter_cons, h]

theorem okRows_cons_false (row : Row) (rest : List Row)
    (h : rowOk row = false) : okRows (row :: rest) = okRows rest := by
  simp [okRows, List.filter_cons, h]

theorem idsOf_cons_true (row : Row) (rest : List Row) (h : rowOk row = true) :
    idsOf (row :: rest) = rowId row :: idsOf rest := by
  simp [idsOf, okRows_cons_true row rest h]

theorem idsOf_cons_false (row : Row) (rest : List Row)
    (h : rowOk row = false) : idsOf (row :: rest) = idsOf rest := by
  simp [idsOf, okRows_cons_false row rest h]

theorem newIdsRec_cons_false (keys : List String) (row : Row)
    (rest : List Row) (h : rowOk row = false) :
    newIdsRec keys (row :: rest) = newIdsRec keys rest := by
  simp [newIdsRec, h]

theorem newIdsRec_cons_mem (keys : List String) (row : Row) (rest : List Row)
    (h : rowOk row = true) (hm : rowId row ∈ keys) :
    newIdsRec keys (row :: rest) = newIdsRec keys rest := by
  simp [newIdsRec, h, hm]

theorem newIdsRec_cons_new (keys : List String) (row : Row) (rest : List Row)
    (h : rowOk row = true) (hm : rowId row ∉ keys) :
    newIdsRec keys (row :: rest) =
      rowId row :: newIdsRec (keys ++ [rowId row]) rest := by
  simp [newIdsRec, h, hm]

theorem map_entryFinal_cons_of_ne (b : Bundle) (now : Nat) (row : Row)
    (rest : List Row) (cat : Catalog)
    (h : ∀ p ∈ cat, p.1 ≠ rowId row) :
    cat.map (fun p => (p.1, entryFinal b now (row :: rest) p.1 (some p.2))) =
      cat.map (fun p => (p.1, entryFinal b now rest p.1 (some p.2))) := by
  apply List.map_congr_left
  intro p hp
  rw [entryFinal_cons_ne b now row rest p.1 (some p.2)
    (Or.inr (Ne.symm (h p hp)))]

theorem map_entryFinal_updateFirst (b : Bundle) (now : Nat) (row : Row)
    (rest : List Row) (cat : Catalog) (hok : rowOk row = true)
    (hnd : (cat.map Prod.fst).Nodup) :
    (updateFirst (rowId row)
        (fun e => entryAfter b now (rowId row) row (some e)) cat).map
        (fun p => (p.1, entryFinal b now rest p.1 (some p.2))) =
      cat.map (fun p => (p.1, entryFinal b now (row :: rest) p.1 (some p.2))) := by
  induction cat with
  | nil => rfl
  | cons p t iht =>
    rw [List.map_cons, List.nodup_cons] at hnd
    simp only [updateFirst]
    by_cases hp : p.1 == rowId row
    · have hpe : p.1 = rowId row := by simpa using hp
      rw [if_pos hp]
      simp only [List.map_cons]
      congr 1
      · rw [hpe, entryFinal_cons_self b now row rest hok (some p.2)]
      · apply List.map_congr_left
        intro q hq
        have hqne : q.1 ≠ rowId row := by
          intro hc
          exact hnd.1 (hpe ▸ hc ▸ List.mem_map.mpr ⟨q, hq, rfl⟩)
        rw [entryFinal_cons_ne b now row rest q.1 (some q.2)
          (Or.inr (Ne.symm hqne))]
    · rw [if_neg hp]
      simp only [List.map_cons]
      congr 1
      · rw [entryFinal_cons_ne b now row rest p.1 (some p.2)
          (Or.inr (Ne.symm (by simpa using hp)))]
      · exact iht hnd.2

theorem map_entryFinal_cons_notok_some (b : Bundle) (now : Nat) (row : Row)
    (rest : List Row) (cat : Catalog) (h : rowOk row = false) :
    cat.map (fun p => (p.1, entryFinal b now (row :: rest) p.1 (some p.2))) =
      cat.map (fun p => (p.1, entryFinal b now rest p.1 (some p.2))) :=
  List.map_congr_left (fun p _ => by
    rw [entryFinal_cons_ne b now row rest p.1 (some p.2) (Or.inl h)])

theorem map_entryFinal_cons_notok_none (b : Bundle) (now : Nat) (row : Row)
    (rest : List Row) (l : List String) (h : rowOk row = false) :
    l.map (fun i => (i, entryFinal b now (row :: rest) i none)) =
      l.map (fun i => (i, entryFinal b now rest i none)) :=
  List.map_congr_left (fun i _ => by
    rw [entryFinal_cons_ne b now row rest i none (Or.inl h)])

theorem map_entryFinal_cons_none_of_ne (b : Bundle) (now : Nat) (row : Row)
    (rest : List Row) (l : List String) (h : ∀ i ∈ l, i ≠ rowId row) :
    l.map (fun i => (i, entryFinal b now (row :: rest) i none)) =
      l.map (fun i => (i, entryFinal b now rest i none)) :=
  List.map_congr_left (fun i hi => by
    rw [entryFinal_cons_ne b now row rest i none (Or.inr (Ne.symm (h i hi)))])

/-- Characterization of the whole row loop: each initial catalog row is
rewritten to its final value (the last processed primary row for its id
wins), rows for new ids are appended in first-occurrence order, and the
counters add up. -/
theorem foldRows_spec (b : Bundle) (now : Nat) (rows : List Row) :
    ∀ (cat : Catalog) (cnt : Counts) (seen : List String),
    (cat.map Prod.fst).Nodup →
    rows.foldl (importRow b now) (cat, cnt, seen) =
      (cat.map (fun p => (p.1, entryFinal b now rows p.1 (some p.2)))
         ++ (newIdsRec (cat.map Prod.fst) rows).map
              (fun i => (i, entryFinal b now rows i none)),
       { total := cnt.total + (okRows rows).length
         added := cnt.added + (newIdsRec (cat.map Prod.fst) rows).length
         updated := cnt.updated
             + ((okRows rows).length
                 - (newIdsRec (cat.map Prod.fst) rows).length)
         sold := cnt.sold },
       seen ++ idsOf rows) := by
  induction rows with
  | nil =>
    intro cat cnt seen hnd
    simp only [List.foldl_nil, newIdsRec, okRows, idsOf, List.filter_nil,
      List.map_nil, List.append_nil, List.length_nil, Nat.add_zero,
      Nat.sub_zero]
    have hmap : cat.map
        (fun p => (p.1, entryFinal b now [] p.1 (some p.2))) = cat := by
      have hpt : ∀ p ∈ cat, (p.1, entryFinal b now [] p.1 (some p.2)) = p := by
        intro p hp
        rw [show entryFinal b now [] p.1 (some p.2) = p.2 from rfl]
      rw [List.map_congr_left hpt]
      exact List.map_id cat
    rw [hmap]
  | cons row rest ih =>
    intro cat cnt seen hnd
    rw [List.foldl_cons]
    cases hok : rowOk row with
    | false =>
      rw [importRow_skip b now _ row hok, ih cat cnt seen hnd,
        okRows_cons_false row rest hok, idsOf_cons_false row rest hok,
        newIdsRec_cons_false _ row rest hok,
        map_entryFinal_cons_notok_some b now row rest cat hok,
        map_entryFinal_cons_notok_none b now row rest _ hok]
    | true =>
      cases hl : lookupCat cat (rowId row) with
      | none =>
        have hm : rowId row ∉ cat.map Prod.fst := lookupCat_eq_none.mp hl
        have hkeys : ∀ p ∈ cat, p.1 ≠ rowId row := fun p hp hc =>
          hm (List.mem_map.mpr ⟨p, hp, hc⟩)
        rw [importRow_new b now cat cnt seen row hok hl]
        have hnd2 : (((cat ++
            [(rowId row, entryAfter b now (rowId row) row none)]).map
              Prod.fst)).Nodup := by
          rw [List.map_append]
          simp [List.nodup_append, hnd, hm]
        rw [ih _ _ _ hnd2]
        have hkeq : (cat ++
            [(rowId row, entryAfter b now (rowId row) row none)]).map
              Prod.fst = cat.map Prod.fst ++ [rowId row] := by simp
        rw [hkeq, okRows_cons_true row rest hok, idsOf_cons_true row rest hok,
          newIdsRec_cons_new _ row rest hok hm,
          map_entryFinal_cons_of_ne b now row rest cat hkeys,
          List.map_cons,
          entryFinal_cons_self b now row rest hok none,
          map_entryFinal_cons_none_of_ne b now row rest _
            (fun i hi hc =>
              mem_newIdsRec_not_mem _ rest i hi
                (hc ▸ List.mem_append_right _ (List.mem_cons_self _ [])))]
        have hle := newIdsRec_length_le (cat.map Prod.fst ++ [rowId row]) rest
        simp only [List.map_append, List.map_cons, List.map_nil,
          List.length_cons, List.append_assoc, List.singleton_append,
          List.cons_append, List.nil_append, Prod.mk.injEq, true_and,
          and_true, Counts.mk.injEq]
        omega
      | some e0 =>
        have hm : rowId row ∈ cat.map Prod.fst := by
          by_contra hc
          rw [← lookupCat_eq_none] at hc
          rw [hl] at hc
          cases hc
        rw [importRow_upd b now cat cnt seen row hok e0 hl]
        have hnd2 : ((updateFirst (rowId row)
            (fun e => entryAfter b now (rowId row) row (some e)) cat).map
              Prod.fst).Nodup := by
          rw [updateFirst_keys]
          exact hnd
        rw [ih _ _ _ hnd2, updateFirst_keys,
          okRows_cons_true row rest hok, idsOf_cons_true row rest hok,
          newIdsRec_cons_mem _ row rest hok hm,
          map_entryFinal_updateFirst b now row rest cat hok hnd,
          map_entryFinal_cons_none_of_ne b now row rest _
            (fun i hi hc =>
              mem_newIdsRec_not_mem _ rest i hi (hc ▸ hm))]
        have hle := newIdsRec_length_le (cat.map Prod.fst) rest
        simp only [List.length_cons, List.append_assoc, List.cons_append,
          List.singleton_append, List.nil_append, Prod.mk.injEq, true_and,
          and_true, Counts.mk.injEq]
        omega

/-- The sold update preserves the key list. -/
theorem markSold_keys (now : Nat) (seen : List String) (cat : Catalog) :
    (markSold now seen cat).1.map Prod.fst = cat.map Prod.fst := by
  unfold markSold
  rw [List.map_map]
  apply List.map_congr_left
  intro p _
  by_cases h : p.2.status = Status.ACTIVE ∧ p.1 ∉ seen
  · simp [h]
  · simp [h]

/-- Lookup through the sold update. -/
theorem lookupCat_markSold (now : Nat) (seen : List String) (cat : Catalog)
    (i : String) :
    lookupCat (markSold now seen cat).1 i =
      (lookupCat cat i).map (fun e =>
        if e.status = Status.ACTIVE ∧ i ∉ seen then
          { e with status := Status.SOLD, sold_at := some now }
        else e) := by
  have hfun : (fun p : String × EntryData =>
      if p.2.status = Status.ACTIVE ∧ p.1 ∉ seen then
        (p.1, { p.2 with status := Status.SOLD, sold_at := some now })
      else p) = fun p => (p.1,
        if p.2.status = Status.ACTIVE ∧ p.1 ∉ seen then
          { p.2 with status := Status.SOLD, sold_at := some now }
        else p.2) := by
    funext p
    by_cases h : p.2.status = Status.ACTIVE ∧ p.1 ∉ seen
    · simp [h]
    · simp [h]
  show lookupCat (cat.map _) i = _
  rw [hfun]
  exact lookupCat_map
    (fun j e => if e.status = Status.ACTIVE ∧ j ∉ seen then
      { e with status := Status.SOLD, sold_at := some now } else e) cat i

/-- When no row is retirable the sold update is a no-op reporting zero. -/
theorem markSold_eq_self (now : Nat) (seen : List String) (cat : Catalog)
    (h : ∀ p ∈ cat, ¬(p.2.status = Status.ACTIVE ∧ p.1 ∉ seen)) :
    markSold now seen cat = (cat, 0) := by
  unfold markSold
  refine Prod.ext ?_ ?_
  · show cat.map _ = cat
    have hpt : ∀ p ∈ cat, (if p.2.status = Status.ACTIVE ∧ p.1 ∉ seen then
        (p.1, { p.2 with status := Status.SOLD, sold_at := some now })
      else p) = p := by
      intro p hp
      rw [if_neg (h p hp)]
    rw [List.map_congr_left hpt]
    exact List.map_id cat
  · show cat.countP _ = 0
    rw [List.countP_eq_zero]
    intro p hp
    simpa using h p hp

/-- Lookup in a catalog fragment built from a key list. -/
theorem lookupCat_mapKeys (g : String → EntryData) (l : List String)
    (i : String) :
    lookupCat (l.map (fun j => (j, g j))) i =
      if i ∈ l then some (g i) else none := by
  induction l with
  | nil => simp [lookupCat]
  | cons j t ih =>
    rw [List.map_cons, lookupCat_cons]
    by_cases h : j = i
    · subst h
      simp
    · rw [if_neg (by simpa using h), ih]
      by_cases h2 : i ∈ t
      · rw [if_pos h2, if_pos (List.mem_cons_of_mem j h2)]
      · rw [if_neg h2,
          if_neg (fun hc =>
            (List.mem_cons.mp hc).elim (fun hc2 => h hc2.symm) h2)]

/-- In a duplicate-free catalog, lookup of a member's key finds it. -/
theorem lookupCat_of_mem_nodup {cat : Catalog}
    (hnd : (cat.map Prod.fst).Nodup) {p : String × EntryData} (hp : p ∈ cat) :
    lookupCat cat p.1 = some p.2 := by
  induction cat with
  | nil => cases hp
  | cons q t ih =>
    rw [List.map_cons, List.nodup_cons] at hnd
    rcases List.mem_cons.mp hp with rfl | hp2
    · rw [lookupCat_cons, if_pos (by simp)]
    · rw [lookupCat_cons, if_neg, ih hnd.2 hp2]
      intro hc
      have : q.1 = p.1 := by simpa using hc
      exact hnd.1 (this ▸ List.mem_map.mpr ⟨p, hp2, rfl⟩)

theorem rowsFor_eq_nil (rows : List Row) (i : String) (h : i ∉ idsOf rows) :
    rowsFor rows i = [] := by
  unfold rowsFor
  rw [List.filter_eq_nil_iff]
  intro r hr hc
  simp only [Bool.and_eq_true, beq_iff_eq] at hc
  exact h (List.mem_map.mpr ⟨r, List.mem_filter.mpr ⟨hr, hc.1⟩, hc.2⟩)

theorem rowsFor_getLast?_of_mem (rows : List Row) (i : String)
    (h : i ∈ idsOf rows) : ∃ row, (rowsFor rows i).getLast? = some row := by
  obtain ⟨r, hr, hid⟩ := List.mem_map.mp h
  have hrf : r ∈ rowsFor rows i := by
    unfold rowsFor
    rw [List.mem_filter]
    unfold okRows at hr
    rw [List.mem_filter] at hr
    exact ⟨hr.1, by simp [hr.2, hid]⟩
  cases hlast : (rowsFor rows i).getLast? with
  | some row => exact ⟨row, rfl⟩
  | none =>
    cases hx : rowsFor rows i with
    | nil => rw [hx] at hrf; cases hrf
    | cons a t => rw [hx, getLast?_cons_getD] at hlast; cases hlast

theorem mem_newIdsRec_mem_idsOf (keys : List String) (rows : List Row)
    (i : String) (h : i ∈ newIdsRec keys rows) : i ∈ idsOf rows := by
  induction rows generalizing keys with
  | nil => simp [newIdsRec] at h
  | cons row rest ih =>
    cases hok : rowOk row with
    | false =>
      rw [newIdsRec_cons_false _ row rest hok] at h
      rw [idsOf_cons_false row rest hok]
      exact ih keys h
    | true =>
      rw [idsOf_cons_true row rest hok]
      by_cases hm : rowId row ∈ keys
      · rw [newIdsRec_cons_mem _ row rest hok hm] at h
        exact List.mem_cons_of_mem _ (ih keys h)
      · rw [newIdsRec_cons_new _ row rest hok hm] at h
        rcases List.mem_cons.mp h with rfl | h2
        · exact List.mem_cons_self _ _
        · exact List.mem_cons_of_mem _ (ih _ h2)

theorem entryFinal_status_of_mem (b : Bundle) (now : Nat) (rows : List Row)
    (i : String) (prev : Option EntryData) (h : i ∈ idsOf rows) :
    (entryFinal b now rows i prev).status = Status.ACTIVE ∧
      (entryFinal b now rows i prev).sold_at = none := by
  obtain ⟨row, hrow⟩ := rowsFor_getLast?_of_mem rows i h
  unfold entryFinal
  rw [hrow]
  exact ⟨entryAfter_status b now i row prev, entryAfter_sold_at b now i row prev⟩

theorem entryFinal_photos_of_mem (b : Bundle) (now : Nat) (rows : List Row)
    (i : String) (prev : Option EntryData) (h : i ∈ idsOf rows) :
    (entryFinal b now rows i prev).photos =
      if (extract_photos (groupFor b.rows_pho i)).isEmpty then
        (match prev with
         | none => []
         | some e => e.photos)
      else renumberFrom 1 (extract_photos (groupFor b.rows_pho i)) := by
  obtain ⟨row, hrow⟩ := rowsFor_getLast?_of_mem rows i h
  unfold entryFinal
  rw [hrow]
  exact entryAfter_photos b now i row prev

theorem entryFinal_eq_entryAfter (b : Bundle) (now : Nat) (rows : List Row)
    (i : String) (prev : Option EntryData) (row : Row)
    (hrow : (rowsFor rows i).getLast? = some row) :
    entryFinal b now rows i prev = entryAfter b now i row prev := by
  unfold entryFinal
  rw [hrow]

theorem entryFinal_stable (b : Bundle) (now1 now2 : Nat) (rows : List Row)
    (i : String) (prev : Option EntryData) (h : i ∈ idsOf rows) :
    entryFinal b now2 rows i (some (entryFinal b now1 rows i prev)) =
      { entryFinal b now1 rows i prev with last_seen_at := some now2 } := by
  obtain ⟨row, hrow⟩ := rowsFor_getLast?_of_mem rows i h
  rw [entryFinal_eq_entryAfter b now1 rows i prev row hrow,
    entryFinal_eq_entryAfter b now2 rows i
      (some (entryAfter b now1 i row prev)) row hrow,
    entryAfter_stable]
  exact entryAfter_last_seen b now1 now2 i row prev

theorem entryFinal_not_mem (b : Bundle) (now : Nat) (rows : List Row)
    (i : String) (e : EntryData) (h : i ∉ idsOf rows) :
    entryFinal b now rows i (some e) = e := by
  unfold entryFinal
  rw [rowsFor_eq_nil rows i h]
  rfl

/-- The catalog produced by the row loop alone (before the sold step). -/
def foldCatalog (b : Bundle) (now : Nat) (cat : Catalog) : Catalog :=
  cat.map (fun p => (p.1, entryFinal b now b.rows_ins p.1 (some p.2)))
    ++ (newIdsRec (cat.map Prod.fst) b.rows_ins).map
        (fun i => (i, entryFinal b now b.rows_ins i none))

/-- runImport in closed form. -/
theorem runImport_eq (b : Bundle) (dm : Bool) (now : Nat) (cat : Catalog)
    (hnd : (cat.map Prod.fst).Nodup) :
    runImport b dm now cat =
      ((if dm then
          (markSold now (idsOf b.rows_ins) (foldCatalog b now cat)).1
        else foldCatalog b now cat),
       { total := (okRows b.rows_ins).length
         added := (newIdsRec (cat.map Prod.fst) b.rows_ins).length
         updated := (okRows b.rows_ins).length
             - (newIdsRec (cat.map Prod.fst) b.rows_ins).length
         sold := if dm then
             (markSold now (idsOf b.rows_ins) (foldCatalog b now cat)).2
           else 0 },
       idsOf b.rows_ins) := by
  unfold runImport
  rw [foldRows_spec b now b.rows_ins cat {} [] hnd]
  cases dm <;> simp [foldCatalog]

theorem foldCatalog_keys (b : Bundle) (now : Nat) (cat : Catalog) :
    (foldCatalog b now cat).map Prod.fst =
      cat.map Prod.fst ++ newIdsRec (cat.map Prod.fst) b.rows_ins := by
  unfold foldCatalog
  rw [List.map_append, List.map_map, List.map_map]
  congr 1
  exact List.map_id _

/-- Lookup in the post-loop catalog. -/
theorem lookupCat_foldCatalog (b : Bundle) (now : Nat) (cat : Catalog)
    (i : String) :
    lookupCat (foldCatalog b now cat) i =
      if i ∈ idsOf b.rows_ins then
        some (entryFinal b now b.rows_ins i (lookupCat cat i))
      else lookupCat cat i := by
  unfold foldCatalog
  rw [lookupCat_append,
    lookupCat_map (fun j e => entryFinal b now b.rows_ins j (some e)) cat i,
    lookupCat_mapKeys]
  cases hl : lookupCat cat i with
  | some e =>
    simp only [Option.map_some']
    by_cases hm : i ∈ idsOf b.rows_ins
    · rw [if_pos hm]
    · rw [if_neg hm, entryFinal_not_mem b now _ i e hm]
  | none =>
    simp only [Option.map_none']
    by_cases hm : i ∈ idsOf b.rows_ins
    · rw [if_pos hm]
      have hkeys : i ∉ cat.map Prod.fst := lookupCat_eq_none.mp hl
      have := idsOf_mem_keys_or_newIds (cat.map Prod.fst) b.rows_ins i hm
      rcases this with hk | hn
      · exact absurd hk hkeys
      · rw [if_pos hn]
    · rw [if_neg hm, if_neg
        (fun hc => hm (mem_newIdsRec_mem_idsOf (cat.map Prod.fst)
          b.rows_ins i hc))]

/-- The post-loop catalog keeps keys duplicate-free. -/
theorem foldCatalog_nodup (b : Bundle) (now : Nat) (cat : Catalog)
    (hnd : (cat.map Prod.fst).Nodup) :
    ((foldCatalog b now cat).map Prod.fst).Nodup := by
  rw [foldCatalog_keys]
  exact keys_newIdsRec_nodup (cat.map Prod.fst) b.rows_ins hnd

/-- Length of a filterMap equals the count of hits. -/
theorem length_filterMap_eq_countP (f : Row → Option (String × Carac))
    (l : List Row) :
    (l.filterMap f).length = l.countP (fun r => (f r).isSome) := by
  induction l with
  | nil => rfl
  | cons r t ih =>
    rw [List.filterMap_cons, List.countP_cons]
    cases hf : f r with
    | none => simp [hf, ih]
    | some x => simp [hf, ih]

/-- A tiny bundle used by witnesses: one primary row with id 1 and no
auxiliary data. -/
def witnessBundle : Bundle :=
  { rows_ins := [["1"]]
    rows_rem := []
    rows_car := []
    rows_pho := []
    rows_uni := []
    rows_pie := []
    addenda := none }

/-- Claim C2: all catalog mutations of the reconciliation and the single
FetchRunResult write happen inside one atomic unit: when any of these
database writes fails, the committed state is exactly the pre-run state —
the catalog untouched and no audit row recorded. -/
theorem claim_C2 (b : Bundle) (doMarkSold : Bool) (now : Nat)
    (failAt : Option Nat) (st : DbState) (e : Unit)
    (h : reconAtomic b doMarkSold now failAt st = Except.error e) :
    handleRun b doMarkSold now failAt st = st := by
  unfold handleRun
  rw [h]

theorem claim_C2_witness :
    reconAtomic witnessBundle true 0 (some 0) { catalog := [], logs := [] } =
        Except.error () ∧
      handleRun witnessBundle true 0 (some 0) { catalog := [], logs := [] } =
        { catalog := [], logs := [] } :=
  ⟨rfl, claim_C2 witnessBundle true 0 (some 0)
    { catalog := [], logs := [] } () rfl⟩

/-- Claim C3 counterexample: a characteristics table carrying the same
well-formed row twice yields a characteristics list with a duplicate
entry, so the characteristics list is not duplicate-free. -/
theorem claim_C3_counterexample :
    ¬ (build_caracteristiques
        [["1", "ALLE", "NPAV"], ["1", "ALLE", "NPAV"]]).2.Nodup := by
  decide

/-- A filterMap is the translation, in place, of the rows the translation
keeps: the kept rows filtered out of the input in order, then mapped. -/
theorem filterMap_eq_map_filter {α β : Type} [Inhabited β] (f : α → Option β)
    (l : List α) :
    l.filterMap f = (l.filter (fun a => (f a).isSome)).map
      (fun a => (f a).getD default) := by
  induction l with
  | nil => rfl
  | cons a t ih =>
    cases hf : f a with
    | none => simp [List.filterMap_cons, List.filter_cons, hf, ih]
    | some b => simp [List.filterMap_cons, List.filter_cons, hf, ih]

/-- Claim C3 (amended): the proximity list of every extracted record is
duplicate-free, preserves first-encounter order (a sublist of the collected
candidates) and holds exactly the non-empty candidates; the characteristics
list preserves first-encounter row order — it is the per-row translation of
the kept rows, which are an order-preserving sublist of the source rows —
but is not deduplicated: it carries one entry per kept characteristics row,
so a repeated row yields a duplicate. -/
theorem claim_C3_amended (addenda_text : String) (carac_rows : List Row) :
    (extract_proximites addenda_text carac_rows).2.Nodup ∧
    (extract_proximites addenda_text carac_rows).2.Sublist
      (proxRaw addenda_text carac_rows) ∧
    (∀ a, a ∈ (extract_proximites addenda_text carac_rows).2 ↔
      a ∈ proxRaw addenda_text carac_rows ∧ a ≠ "") ∧
    (build_caracteristiques carac_rows).2 =
      (carac_rows.filter (fun r => (caracItem r).isSome)).map
        (fun r => ((caracItem r).getD default).2) ∧
    (carac_rows.filter (fun r => (caracItem r).isSome)).Sublist carac_rows ∧
    (build_caracteristiques carac_rows).2.length =
      carac_rows.countP (fun r => (caracItem r).isSome) := by
  refine ⟨dedupSeen_nodup [] _, dedupSeen_sublist [] _, ?_, ?_,
    List.filter_sublist _, ?_⟩
  · intro a
    rw [show (extract_proximites addenda_text carac_rows).2 =
      dedupSeen [] (proxRaw addenda_text carac_rows) from rfl]
    rw [mem_dedupSeen]
    simp
  · show (carac_rows.filterMap caracItem).map Prod.snd = _
    rw [filterMap_eq_map_filter caracItem carac_rows, List.map_map]
    rfl
  · show ((carac_rows.filterMap caracItem).map Prod.snd).length = _
    rw [List.length_map]
    exact length_filterMap_eq_countP caracItem carac_rows

/-- Claim C4 counterexample: a single well-formed unit row with sequence
"2" and numeric room counts; the sort succeeds, no sequence equals "1", and
contrary to the claim no fallback to the first row happens — total rooms
and bedrooms come out null although a row exists. -/
theorem claim_C4_counterexample :
    ([["L", "2", "x", "5", "3"]] : List Row) ≠ [] ∧
    extract_units [["L", "2", "x", "5", "3"]] [] = (none, none, none) := by
  constructor
  · decide
  · rfl

/-- Claim C4 (amended): when every sort key parses and some row's cleaned
unit-sequence equals "1", the principal unit is a source row with sequence
"1" and room counts are read from it; when computing a sort key raises, the
fallback selects the first available row; but when every sort key parses
and no row's sequence equals "1", there is no fallback — the principal unit
is none and total rooms and bedrooms are null (the bathroom count, from the
room-details table, is unaffected in every case). -/
theorem claim_C4_amended (units_rows pieces_rows : List Row) :
    (units_rows.all (fun r => (unitKey r).isSome) = true →
      (∃ r0 ∈ units_rows, clean (r0.getD 1 "") = "1") →
      ∃ r, principalUnit units_rows = some r ∧ r ∈ units_rows ∧
        clean (r.getD 1 "") = "1" ∧
        extract_units units_rows pieces_rows =
          (unitNumCol (some r) 3, unitNumCol (some r) 4,
           bathroomsSDB pieces_rows)) ∧
    (units_rows.all (fun r => (unitKey r).isSome) = false →
      principalUnit units_rows = units_rows.head? ∧
      extract_units units_rows pieces_rows =
        (unitNumCol units_rows.head? 3, unitNumCol units_rows.head? 4,
         bathroomsSDB pieces_rows)) ∧
    (units_rows.all (fun r => (unitKey r).isSome) = true →
      units_rows.all (fun r => !(clean (r.getD 1 "") == "1")) = true →
      principalUnit units_rows = none ∧
      extract_units units_rows pieces_rows =
        (none, none, bathroomsSDB pieces_rows)) := by
  refine ⟨?_, ?_, ?_⟩
  · intro hkeys hex0
    obtain ⟨r0, hr0, hseq0⟩ := hex0
    have hmem : r0 ∈ stableSortBy (fun r => (unitKey r).getD 0) units_rows :=
      (stableSortBy_perm (fun r => (unitKey r).getD 0) units_rows).mem_iff.mpr
        hr0
    have hex : ∃ x ∈ stableSortBy (fun r => (unitKey r).getD 0) units_rows,
        (clean (x.getD 1 "") == "1") = true :=
      ⟨r0, hmem, by exact beq_iff_eq.mpr hseq0⟩
    obtain ⟨r, hr⟩ := Option.isSome_iff_exists.mp (List.find?_isSome.mpr hex)
    have hp : principalUnit units_rows = some r := by
      unfold principalUnit
      rw [if_pos hkeys]
      exact hr
    refine ⟨r, hp, ?_, ?_, ?_⟩
    · exact (stableSortBy_perm (fun r2 => (unitKey r2).getD 0)
        units_rows).mem_iff.mp (List.mem_of_find?_eq_some hr)
    · simpa using List.find?_some hr
    · unfold extract_units
      rw [hp]
  · intro hkeys
    have hp : principalUnit units_rows = units_rows.head? := by
      unfold principalUnit
      rw [if_neg (by simp [hkeys])]
    refine ⟨hp, ?_⟩
    unfold extract_units
    rw [hp]
  · intro hkeys hnone
    have hp : principalUnit units_rows = none := by
      unfold principalUnit
      rw [if_pos hkeys, List.find?_eq_none]
      intro r hr
      have hr2 : r ∈ units_rows :=
        (stableSortBy_perm (fun r2 => (unitKey r2).getD 0)
          units_rows).mem_iff.mp hr
      have := List.all_eq_true.mp hnone r hr2
      simpa using this
    refine ⟨hp, ?_⟩
    unfold extract_units
    rw [hp]
    rfl

theorem claim_C4_witness :
    (∃ r, principalUnit [["A", "2", "x", "8", "4"], ["B", "1", "x", "5", "3"]]
        = some r ∧
      r ∈ [["A", "2", "x", "8", "4"], ["B", "1", "x", "5", "3"]] ∧
      clean (r.getD 1 "") = "1" ∧
      extract_units [["A", "2", "x", "8", "4"], ["B", "1", "x", "5", "3"]] []
        = (unitNumCol (some r) 3, unitNumCol (some r) 4, bathroomsSDB [])) ∧
    (principalUnit [["C", "zz", "x", "6", "2"], ["D", "1", "x", "7", "3"]] =
        [["C", "zz", "x", "6", "2"], ["D", "1", "x", "7", "3"]].head? ∧
      extract_units [["C", "zz", "x", "6", "2"], ["D", "1", "x", "7", "3"]] []
        = (unitNumCol [["C", "zz", "x", "6", "2"],
             ["D", "1", "x", "7", "3"]].head? 3,
           unitNumCol [["C", "zz", "x", "6", "2"],
             ["D", "1", "x", "7", "3"]].head? 4,
           bathroomsSDB [])) ∧
    (principalUnit [["L", "2", "x", "5", "3"]] = none ∧
      extract_units [["L", "2", "x", "5", "3"]] [] =
        (none, none, bathroomsSDB [])) := by
  refine ⟨?_, ?_, ?_⟩
  · exact (claim_C4_amended
      [["A", "2", "x", "8", "4"], ["B", "1", "x", "5", "3"]] []).1
      (by decide) ⟨["B", "1", "x", "5", "3"], by decide, by decide⟩
  · exact (claim_C4_amended
      [["C", "zz", "x", "6", "2"], ["D", "1", "x", "7", "3"]] []).2.1
      (by decide)
  · exact (claim_C4_amended [["L", "2", "x", "5", "3"]] []).2.2
      (by decide) (by decide)

/-- Claim C6: when the characteristics table has no row with the proximity
category code but the addenda text matches the case-insensitive proximity
marker, the proximity list is the marker tail split on semicolons and
commas, markup-stripped and trimmed, deduplicated keeping the first
occurrence of each non-empty piece. -/
theorem claim_C6 (addenda_text : String) (carac_rows : List Row)
    (seg : List Char) (hne : addenda_text ≠ "")
    (hnoprox : ∀ r ∈ carac_rows,
      ¬(3 ≤ r.length ∧ clean (r.getD 1 "") = "PROX"))
    (hm : searchProx addenda_text.toList = some seg) :
    (extract_proximites addenda_text carac_rows).2 =
      dedupSeen [] (proxPieces seg) := by
  have h0 : proxFromCarac carac_rows = [] := by
    unfold proxFromCarac
    rw [List.filterMap_eq_nil_iff]
    intro r hr
    rw [if_neg]
    intro hc
    rw [Bool.and_eq_true] at hc
    exact hnoprox r hr ⟨by simpa using hc.1, by simpa using hc.2⟩
  show dedupSeen [] (proxRaw addenda_text carac_rows) = _
  unfold proxRaw
  rw [h0]
  rw [if_pos ⟨by decide, hne⟩, hm]

theorem claim_C6_witness :
    (extract_proximites "À proximité: Autoroute, École primaire" []).2 =
      ["Autoroute", "École primaire"] := by
  rw [claim_C6 "À proximité: Autoroute, École primaire" []
    ("Autoroute, École primaire".toList) (by decide)
    (fun r hr => absurd hr (List.not_mem_nil r)) (by decide)]
  decide

/-- Rendering of the description rule in the spec's words: keep the
marker-flagged remarks rows (the full seven-column layout), leave them in
encounter order when any sequence value fails to parse and otherwise sort
them stably by the numeric sequence, join the non-empty cleaned texts with
single spaces, replace line-break markup and strip; an empty result is
null.  Stated per the spec to compare with the source translation. -/
def descriptionSpec (remarques_rows : List Row) : Option String :=
  let chosen := remarkChosen remarques_rows
  let ordered :=
    if chosen.any (fun r => (descKey r).isNone) then chosen
    else stableSortBy (fun r => (descKey r).getD 0) chosen
  let text := String.intercalate " "
    (ordered.filterMap (fun r =>
      let t := clean (r.getLastD "")
      if t = "" then none else some t))
  let text2 := String.mk (stripEdges isPySpace (stripBr text.toList))
  if text2 = "" then none else some text2

theorem desc_all_isSome_eq (l : List Row) :
    l.all (fun r => (descKey r).isSome) =
      !l.any (fun r => (descKey r).isNone) := by
  induction l with
  | nil => rfl
  | cons r t ih =>
    simp only [List.all_cons, List.any_cons, Bool.not_or, ih]
    congr 1
    cases descKey r <;> rfl

/-- Claim C8: the description is built from exactly the marker-flagged
remarks rows, ordered by their numeric sequence ascending, with encounter
order kept unchanged when any sequence value is non-numeric, texts joined
by single spaces and line-break markup removed. -/
theorem claim_C8 (remarques_rows : List Row) :
    extract_description remarques_rows = descriptionSpec remarques_rows := by
  unfold extract_description descriptionSpec
  simp only [desc_all_isSome_eq]
  cases hany : (remarkChosen remarques_rows).any
    (fun r => (descKey r).isNone) <;> simp [hany]

/-- Claim C9: when the index listing yields dates, discovery picks the
maximum date not after today when one exists and otherwise the overall
maximum; when the index yields nothing — whether the fetch raised or the
listing was reachable but empty — it probes today, today-1, today-2 in
that order and returns the first existing one; and it fails exactly when
neither strategy produces a candidate. -/
theorem claim_C9 (base : String) (today : Int) (headOk : Int → Bool) :
    (∀ dates : List Int, dates ≠ [] → (∃ d ∈ dates, d ≤ today) →
      find_latest_available base (some dates) today headOk =
        Except.ok
          (compose_url base
            (listMax (dates.filter (fun d => decide (d ≤ today)))),
           listMax (dates.filter (fun d => decide (d ≤ today)))) ∧
      listMax (dates.filter (fun d => decide (d ≤ today))) ∈ dates ∧
      listMax (dates.filter (fun d => decide (d ≤ today))) ≤ today ∧
      (∀ d ∈ dates, d ≤ today →
        d ≤ listMax (dates.filter (fun d2 => decide (d2 ≤ today))))) ∧
    (∀ dates : List Int, dates ≠ [] → (∀ d ∈ dates, ¬(d ≤ today)) →
      find_latest_available base (some dates) today headOk =
        Except.ok (compose_url base (listMax dates), listMax dates) ∧
      listMax dates ∈ dates ∧ ∀ d ∈ dates, d ≤ listMax dates) ∧
    (find_latest_available base none today headOk =
      probeFallback base today headOk) ∧
    (find_latest_available base (some []) today headOk =
      probeFallback base today headOk) ∧
    (headOk today = true →
      probeFallback base today headOk =
        Except.ok (compose_url base today, today)) ∧
    (headOk today = false → headOk (today - 1) = true →
      probeFallback base today headOk =
        Except.ok (compose_url base (today - 1), today - 1)) ∧
    (headOk today = false → headOk (today - 1) = false →
      headOk (today - 2) = true →
      probeFallback base today headOk =
        Except.ok (compose_url base (today - 2), today - 2)) ∧
    (headOk today = false → headOk (today - 1) = false →
      headOk (today - 2) = false →
      probeFallback base today headOk = Except.error ()) := by
  refine ⟨?_, ?_, rfl, rfl, ?_, ?_, ?_, ?_⟩
  · intro dates hne ⟨d0, hd0, hd0le⟩
    have hmem : d0 ∈ dates.filter (fun d => decide (d ≤ today)) :=
      List.mem_filter.mpr ⟨hd0, by simpa using hd0le⟩
    have hfne : dates.filter (fun d => decide (d ≤ today)) ≠ [] := by
      intro hc
      rw [hc] at hmem
      cases hmem
    have hbm := listMax_mem hfne
    have hbm2 := List.mem_filter.mp hbm
    refine ⟨?_, hbm2.1, by simpa using hbm2.2, ?_⟩
    · have h1 : dates.isEmpty = false := by
        simpa [List.isEmpty_iff] using hne
      have h2 : (dates.filter (fun d => decide (d ≤ today))).isEmpty
          = false := by
        simpa [List.isEmpty_iff] using hfne
      simp only [find_latest_available, h1, h2, Bool.false_eq_true, if_false]
    · intro d hd hdle
      exact le_listMax (List.mem_filter.mpr ⟨hd, by simpa using hdle⟩)
  · intro dates hne hall
    have hfe : dates.filter (fun d => decide (d ≤ today)) = [] := by
      rw [List.filter_eq_nil_iff]
      intro d hd
      simpa using hall d hd
    refine ⟨?_, listMax_mem hne, fun d hd => le_listMax hd⟩
    have h1 : dates.isEmpty = false := by
      simpa [List.isEmpty_iff] using hne
    simp only [find_latest_available, h1, hfe, Bool.false_eq_true, if_false,
      List.isEmpty_nil, if_true]
  · intro h0
    unfold probeFallback
    rw [if_pos h0]
  · intro h0 h1
    unfold probeFallback
    rw [if_neg (by simp [h0]), if_pos h1]
  · intro h0 h1 h2
    unfold probeFallback
    rw [if_neg (by simp [h0]), if_neg (by simp [h1]), if_pos h2]
  · intro h0 h1 h2
    unfold probeFallback
    rw [if_neg (by simp [h0]), if_neg (by simp [h1]), if_neg (by simp [h2])]

theorem claim_C9_witness :
    find_latest_available "base/" (some [5, 9, 20]) 10 (fun _ => false) =
        Except.ok (compose_url "base/" 9, 9) ∧
    find_latest_available "base/" (some [20, 30]) 10 (fun _ => false) =
        Except.ok (compose_url "base/" 30, 30) ∧
    find_latest_available "base/" none 10 (fun d => d == 9) =
        Except.ok (compose_url "base/" 9, 9) ∧
    find_latest_available "base/" (some []) 10 (fun d => d == 9) =
        Except.ok (compose_url "base/" 9, 9) ∧
    find_latest_available "base/" none 10 (fun _ => false) =
        Except.error () := by
  refine ⟨?_, ?_, ?_, ?_, ?_⟩
  · exact ((claim_C9 "base/" 10 (fun _ => false)).1 [5, 9, 20] (by decide)
      ⟨5, by decide, by decide⟩).1.trans rfl
  · exact ((claim_C9 "base/" 10 (fun _ => false)).2.1 [20, 30] (by decide)
      (by decide)).1.trans rfl
  · have h := claim_C9 "base/" 10 (fun d => d == 9)
    exact (h.2.2.1).trans
      ((h.2.2.2.2.2.1 (by decide) (by decide)).trans rfl)
  · have h := claim_C9 "base/" 10 (fun d => d == 9)
    exact (h.2.2.2.1).trans
      ((h.2.2.2.2.2.1 (by decide) (by decide)).trans rfl)
  · have h := claim_C9 "base/" 10 (fun _ => false)
    exact (h.2.2.1).trans
      (h.2.2.2.2.2.2.2 (by decide) (by decide) (by decide))

/-- Claim C10: the audit counters satisfy added + updated = total, where
total counts primary rows whose cleaned first field is non-empty (rows, not
distinct ids); the rows created are one per distinct new id, so a repeated
id yields one catalog row while the counters tick on every occurrence. -/
theorem claim_C10 (b : Bundle) (dm : Bool) (now : Nat) (cat : Catalog)
    (hnd : (cat.map Prod.fst).Nodup) :
    (runImport b dm now cat).2.1.total =
      (b.rows_ins.filter (fun r =>
        !r.isEmpty && (clean (r.headD "") != ""))).length ∧
    (runImport b dm now cat).2.1.added + (runImport b dm now cat).2.1.updated =
      (runImport b dm now cat).2.1.total ∧
    (runImport b dm now cat).2.1.added =
      (newIdsRec (cat.map Prod.fst) b.rows_ins).length ∧
    (runImport b dm now cat).1.map Prod.fst =
      cat.map Prod.fst ++ newIdsRec (cat.map Prod.fst) b.rows_ins := by
  rw [runImport_eq b dm now cat hnd]
  refine ⟨rfl, ?_, rfl, ?_⟩
  · have hle := newIdsRec_length_le (cat.map Prod.fst) b.rows_ins
    show (newIdsRec (cat.map Prod.fst) b.rows_ins).length
        + ((okRows b.rows_ins).length
            - (newIdsRec (cat.map Prod.fst) b.rows_ins).length)
      = (okRows b.rows_ins).length
    omega
  · cases dm
    · exact foldCatalog_keys b now cat
    · show (markSold now (idsOf b.rows_ins) (foldCatalog b now cat)).1.map
          Prod.fst = _
      rw [markSold_keys]
      exact foldCatalog_keys b now cat

/-- Bundle with a duplicated primary id, for the C10 witness. -/
def witnessBundleDup : Bundle :=
  { rows_ins := [["7"], ["7"]]
    rows_rem := []
    rows_car := []
    rows_pho := []
    rows_uni := []
    rows_pie := []
    addenda := none }

theorem claim_C10_witness :
    (runImport witnessBundleDup true 0 []).2.1.total = 2 ∧
    (runImport witnessBundleDup true 0 []).2.1.added
        + (runImport witnessBundleDup true 0 []).2.1.updated =
      (runImport witnessBundleDup true 0 []).2.1.total ∧
    (runImport witnessBundleDup true 0 []).1.map Prod.fst = ["7"] := by
  have h := claim_C10 witnessBundleDup true 0 [] (by decide)
  refine ⟨h.1.trans (by decide), h.2.1, h.2.2.2.trans (by decide)⟩

/-- Claim C1: with the sold-retirement step enabled, after a run the ids
with status ACTIVE are exactly the cleaned non-empty ids of the run's
primary table: every seen id (a previously SOLD one included) ends ACTIVE
with sold_at null, and every previously-ACTIVE id not seen ends SOLD with
sold_at equal to the run timestamp. -/
theorem claim_C1 (b : Bundle) (now : Nat) (cat : Catalog)
    (hnd : (cat.map Prod.fst).Nodup) :
    (∀ i ∈ idsOf b.rows_ins,
      ∃ e, lookupCat (runImport b true now cat).1 i = some e ∧
        e.status = Status.ACTIVE ∧ e.sold_at = none) ∧
    (∀ i e, lookupCat (runImport b true now cat).1 i = some e →
      e.status = Status.ACTIVE → i ∈ idsOf b.rows_ins) ∧
    (∀ p ∈ cat, p.2.status = Status.ACTIVE → p.1 ∉ idsOf b.rows_ins →
      ∃ e, lookupCat (runImport b true now cat).1 p.1 = some e ∧
        e.status = Status.SOLD ∧ e.sold_at = some now) := by
  have hcat : (runImport b true now cat).1 =
      (markSold now (idsOf b.rows_ins) (foldCatalog b now cat)).1 := by
    rw [runImport_eq b true now cat hnd]
    rfl
  refine ⟨?_, ?_, ?_⟩
  · intro i hi
    rw [hcat, lookupCat_markSold, lookupCat_foldCatalog, if_pos hi]
    have hsa := entryFinal_status_of_mem b now b.rows_ins i
      (lookupCat cat i) hi
    simp only [Option.map_some']
    rw [if_neg (fun hc => hc.2 hi)]
    exact ⟨_, rfl, hsa.1, hsa.2⟩
  · intro i e hle hact
    by_contra hni
    rw [hcat, lookupCat_markSold, lookupCat_foldCatalog, if_neg hni] at hle
    cases hl0 : lookupCat cat i with
    | none =>
      rw [hl0] at hle
      cases hle
    | some e0 =>
      rw [hl0] at hle
      simp only [Option.map_some'] at hle
      by_cases hp : e0.status = Status.ACTIVE ∧ i ∉ idsOf b.rows_ins
      · rw [if_pos hp] at hle
        injection hle with hle
        rw [← hle] at hact
        cases hact
      · rw [if_neg hp] at hle
        injection hle with hle
        subst hle
        exact hp ⟨hact, hni⟩
  · intro p hp hact hni
    have hl0 : lookupCat cat p.1 = some p.2 := lookupCat_of_mem_nodup hnd hp
    rw [hcat, lookupCat_markSold, lookupCat_foldCatalog, if_neg hni, hl0]
    simp only [Option.map_some']
    rw [if_pos ⟨hact, hni⟩]
    exact ⟨_, rfl, rfl, rfl⟩

/-- Catalog with one ACTIVE entry under an id absent from witnessBundle,
for the C1 witness. -/
def witnessCat : Catalog :=
  [("2", { (default : EntryData) with status := Status.ACTIVE })]

theorem claim_C1_witness :
    (∃ e, lookupCat (runImport witnessBundle true 7 witnessCat).1 "1"
        = some e ∧ e.status = Status.ACTIVE ∧ e.sold_at = none) ∧
    (∃ e, lookupCat (runImport witnessBundle true 7 witnessCat).1 "2"
        = some e ∧ e.status = Status.SOLD ∧ e.sold_at = some 7) := by
  have h := claim_C1 witnessBundle 7 witnessCat (by decide)
  exact ⟨h.1 "1" (by decide),
    h.2.2 ("2", { (default : EntryData) with status := Status.ACTIVE })
      (by decide) rfl (by decide)⟩

/-- Claim C5: for every listing id of the run, when extraction produced at
least one photo the stored photos become exactly the extracted pairs
renumbered contiguously from 1 (unique sequences per listing), and the
extracted pairs are sorted by the raw feed sequence; with zero extracted
photos the stored photos are left exactly as they were. -/
theorem claim_C5 (b : Bundle) (dm : Bool) (now : Nat) (cat : Catalog)
    (hnd : (cat.map Prod.fst).Nodup) :
    (∀ i ∈ idsOf b.rows_ins,
      ∃ e, lookupCat (runImport b dm now cat).1 i = some e ∧
        (extract_photos (groupFor b.rows_pho i) = [] →
          e.photos = (match lookupCat cat i with
                      | some e0 => e0.photos
                      | none => [])) ∧
        (extract_photos (groupFor b.rows_pho i) ≠ [] →
          e.photos = renumberFrom 1 (extract_photos (groupFor b.rows_pho i)) ∧
          e.photos.map Prod.fst =
            List.range' 1 (extract_photos (groupFor b.rows_pho i)).length ∧
          (e.photos.map Prod.fst).Nodup)) ∧
    (∀ photo_rows : List Row,
      (extract_photos photo_rows).Pairwise (fun a b2 => a.1 ≤ b2.1)) := by
  constructor
  · intro i hi
    have hmain : ∃ e, lookupCat (runImport b dm now cat).1 i = some e ∧
        e.photos =
          (entryFinal b now b.rows_ins i (lookupCat cat i)).photos := by
      rw [runImport_eq b dm now cat hnd]
      cases dm
      · show ∃ e, lookupCat (foldCatalog b now cat) i = some e ∧ _
        rw [lookupCat_foldCatalog, if_pos hi]
        exact ⟨_, rfl, rfl⟩
      · show ∃ e, lookupCat
            (markSold now (idsOf b.rows_ins) (foldCatalog b now cat)).1 i
            = some e ∧ _
        rw [lookupCat_markSold, lookupCat_foldCatalog, if_pos hi]
        simp only [Option.map_some']
        rw [if_neg (fun hc => hc.2 hi)]
        exact ⟨_, rfl, rfl⟩
    obtain ⟨e, hle, hph⟩ := hmain
    refine ⟨e, hle, ?_, ?_⟩
    · intro h0
      rw [hph, entryFinal_photos_of_mem b now b.rows_ins i _ hi, h0]
      cases lookupCat cat i <;> rfl
    · intro hne0
      have hEmpty : (extract_photos (groupFor b.rows_pho i)).isEmpty
          = false := by
        cases hx : extract_photos (groupFor b.rows_pho i)
        · exact absurd hx hne0
        · rfl
      rw [hph, entryFinal_photos_of_mem b now b.rows_ins i _ hi, hEmpty]
      simp only [Bool.false_eq_true, if_false]
      refine ⟨trivial, renumberFrom_map_fst 1 _, ?_⟩
      rw [renumberFrom_map_fst]
      exact List.nodup_range' _ _
  · intro photo_rows
    have h := stableSortBy_pairwise (fun t : Nat × String => (t.1 : Int))
      (photo_rows.filterMap photoKeyUrl)
    unfold extract_photos
    exact h.imp (fun hab => by exact_mod_cast hab)

/-- A bundle carrying photos for id 1, for the C5 witness. -/
def witnessBundlePhotos : Bundle :=
  { rows_ins := [["1"]]
    rows_rem := []
    rows_car := []
    rows_pho := [["1", "4", "x", "y", "z", "w", "http://b"],
                 ["1", "2", "x", "y", "z", "w", "http://a"]]
    rows_uni := []
    rows_pie := []
    addenda := none }

theorem claim_C5_witness :
    (∃ e, lookupCat (runImport witnessBundlePhotos true 3 []).1 "1"
        = some e ∧
      (extract_photos (groupFor witnessBundlePhotos.rows_pho "1") = [] →
        e.photos = (match lookupCat [] "1" with
                    | some e0 => e0.photos
                    | none => [])) ∧
      (extract_photos (groupFor witnessBundlePhotos.rows_pho "1") ≠ [] →
        e.photos = renumberFrom 1
          (extract_photos (groupFor witnessBundlePhotos.rows_pho "1")) ∧
        e.photos.map Prod.fst = List.range' 1
          (extract_photos (groupFor witnessBundlePhotos.rows_pho "1")).length ∧
        (e.photos.map Prod.fst).Nodup)) ∧
    (extract_photos witnessBundlePhotos.rows_pho).Pairwise
      (fun a b2 => a.1 ≤ b2.1) := by
  have h := claim_C5 witnessBundlePhotos true 3 [] (by decide)
  exact ⟨h.1 "1" (by decide), h.2 witnessBundlePhotos.rows_pho⟩

/-- Claim C7 counterexample: running the same bundle twice with different
run timestamps does not leave the catalog entry identical — last_seen_at is
refreshed by the second run. -/
theorem claim_C7_counterexample :
    lookupCat (runImport witnessBundle true 1
        (runImport witnessBundle true 0 []).1).1 "1" ≠
      lookupCat (runImport witnessBundle true 0 []).1 "1" := by
  decide

/-- Claim C7 (amended): a second run of the same bundle over the catalog
produced by a first run adds nothing, marks nothing sold, counts every
processed row as an update, and changes each stored entry only by setting
last_seen_at to the second run timestamp (entries outside the feed are
untouched). -/
theorem claim_C7_amended (b : Bundle) (dm : Bool) (now1 now2 : Nat)
    (cat : Catalog) (hnd : (cat.map Prod.fst).Nodup) :
    (runImport b dm now2 (runImport b dm now1 cat).1).2.1.added = 0 ∧
    (runImport b dm now2 (runImport b dm now1 cat).1).2.1.sold = 0 ∧
    (runImport b dm now2 (runImport b dm now1 cat).1).2.1.updated =
      (runImport b dm now2 (runImport b dm now1 cat).1).2.1.total ∧
    (∀ i, lookupCat (runImport b dm now2 (runImport b dm now1 cat).1).1 i =
      (lookupCat (runImport b dm now1 cat).1 i).map (fun e =>
        if i ∈ idsOf b.rows_ins then { e with last_seen_at := some now2 }
        else e)) := by
  have hk1 : (runImport b dm now1 cat).1.map Prod.fst =
      cat.map Prod.fst ++ newIdsRec (cat.map Prod.fst) b.rows_ins := by
    rw [runImport_eq b dm now1 cat hnd]
    cases dm
    · exact foldCatalog_keys b now1 cat
    · show (markSold now1 (idsOf b.rows_ins)
          (foldCatalog b now1 cat)).1.map Prod.fst = _
      rw [markSold_keys]
      exact foldCatalog_keys b now1 cat
  have hnd1 : ((runImport b dm now1 cat).1.map Prod.fst).Nodup := by
    rw [hk1]; exact keys_newIdsRec_nodup _ _ hnd
  have hsub : ∀ j ∈ idsOf b.rows_ins,
      j ∈ (runImport b dm now1 cat).1.map Prod.fst := by
    intro j hj
    rw [hk1]
    rcases idsOf_mem_keys_or_newIds (cat.map Prod.fst) b.rows_ins j hj
      with h | h
    · exact List.mem_append_left _ h
    · exact List.mem_append_right _ h
  have hnew2 : newIdsRec ((runImport b dm now1 cat).1.map Prod.fst)
      b.rows_ins = [] :=
    newIdsRec_eq_nil _ _ hsub
  have hlook1 : ∀ j, lookupCat (runImport b dm now1 cat).1 j =
      if j ∈ idsOf b.rows_ins then
        some (entryFinal b now1 b.rows_ins j (lookupCat cat j))
      else
        (lookupCat cat j).map (fun e =>
          if dm = true ∧ e.status = Status.ACTIVE then
            { e with status := Status.SOLD, sold_at := some now1 }
          else e) := by
    intro j
    rw [runImport_eq b dm now1 cat hnd]
    cases dm
    · show lookupCat (foldCatalog b now1 cat) j = _
      rw [lookupCat_foldCatalog]
      by_cases hj : j ∈ idsOf b.rows_ins
      · rw [if_pos hj, if_pos hj]
      · rw [if_neg hj, if_neg hj]
        cases lookupCat cat j with
        | none => rfl
        | some e =>
          simp only [Option.map_some']
          rw [if_neg (fun hc => Bool.false_ne_true hc.1)]
    · show lookupCat (markSold now1 (idsOf b.rows_ins)
          (foldCatalog b now1 cat)).1 j = _
      rw [lookupCat_markSold, lookupCat_foldCatalog]
      by_cases hj : j ∈ idsOf b.rows_ins
      · rw [if_pos hj, if_pos hj]
        simp only [Option.map_some']
        rw [if_neg (fun hc => hc.2 hj)]
      · rw [if_neg hj, if_neg hj]
        cases lookupCat cat j with
        | none => rfl
        | some e =>
          simp only [Option.map_some']
          by_cases hs : e.status = Status.ACTIVE
          · rw [if_pos ⟨hs, hj⟩, if_pos ⟨trivial, hs⟩]
          · rw [if_neg (fun hc => hs hc.1), if_neg (fun hc => hs hc.2)]
  have hpred : dm = true →
      ∀ p ∈ foldCatalog b now2 (runImport b dm now1 cat).1,
      ¬(p.2.status = Status.ACTIVE ∧ p.1 ∉ idsOf b.rows_ins) := by
    intro hdm p hp hc
    subst hdm
    unfold foldCatalog at hp
    rw [hnew2] at hp
    simp only [List.map_nil, List.append_nil, List.mem_map] at hp
    obtain ⟨q, hq, hpe⟩ := hp
    subst hpe
    rw [entryFinal_not_mem b now2 b.rows_ins q.1 q.2 hc.2] at hc
    have hlq := lookupCat_of_mem_nodup hnd1 hq
    rw [hlook1 q.1, if_neg hc.2] at hlq
    cases hl0 : lookupCat cat q.1 with
    | none => rw [hl0] at hlq; simp at hlq
    | some e0 =>
      rw [hl0] at hlq
      simp only [Option.map_some', Option.some.injEq] at hlq
      by_cases hs : e0.status = Status.ACTIVE
      · rw [if_pos ⟨trivial, hs⟩] at hlq
        have h1 := hc.1
        rw [← hlq] at h1
        exact Status.noConfusion h1
      · rw [if_neg (fun hcc => hs hcc.2)] at hlq
        have h1 := hc.1
        rw [← hlq] at h1
        exact hs h1
  refine ⟨?_, ?_, ?_, ?_⟩
  · rw [runImport_eq b dm now2 _ hnd1]
    show (newIdsRec ((runImport b dm now1 cat).1.map Prod.fst)
        b.rows_ins).length = 0
    rw [hnew2]
    rfl
  · rw [runImport_eq b dm now2 _ hnd1]
    cases dm
    · rfl
    · show (markSold now2 (idsOf b.rows_ins)
          (foldCatalog b now2 (runImport b true now1 cat).1)).2 = 0
      rw [markSold_eq_self now2 (idsOf b.rows_ins) _ (hpred rfl)]
  · rw [runImport_eq b dm now2 _ hnd1]
    show (okRows b.rows_ins).length -
        (newIdsRec ((runImport b dm now1 cat).1.map Prod.fst)
          b.rows_ins).length = (okRows b.rows_ins).length
    rw [hnew2]
    rfl
  · intro i
    have hfold2 : lookupCat
        (runImport b dm now2 (runImport b dm now1 cat).1).1 i =
        lookupCat (foldCatalog b now2 (runImport b dm now1 cat).1) i := by
      rw [runImport_eq b dm now2 _ hnd1]
      cases dm
      · rfl
      · show lookupCat (markSold now2 (idsOf b.rows_ins)
            (foldCatalog b now2 (runImport b true now1 cat).1)).1 i = _
        rw [markSold_eq_self now2 (idsOf b.rows_ins) _ (hpred rfl)]
    rw [hfold2, lookupCat_foldCatalog]
    by_cases hi : i ∈ idsOf b.rows_ins
    · rw [if_pos hi]
      rw [hlook1 i]
      rw [if_pos hi]
      rw [entryFinal_stable b now1 now2 b.rows_ins i (lookupCat cat i) hi]
      simp only [Option.map_some']
      rw [if_pos hi]
    · rw [if_neg hi]
      cases hl : lookupCat (runImport b dm now1 cat).1 i with
      | none => rfl
      | some e1 =>
        simp only [Option.map_some']
        rw [if_neg hi]

theorem claim_C7_witness :
    (runImport witnessBundle true 1
        (runImport witnessBundle true 0 []).1).2.1.added = 0 ∧
    (runImport witnessBundle true 1
        (runImport witnessBundle true 0 []).1).2.1.sold = 0 ∧
    lookupCat (runImport witnessBundle true 1
        (runImport witnessBundle true 0 []).1).1 "1" =
      (lookupCat (runImport witnessBundle true 0 []).1 "1").map (fun e =>
        if "1" ∈ idsOf witnessBundle.rows_ins then
          { e with last_seen_at := some 1 }
        else e) := by
  have h := claim_C7_amended witnessBundle true 0 1 [] (by decide)
  exact ⟨h.1, h.2.1, h.2.2.2 "1"⟩
